import Mathlib

/-!
Verification development for the multi-supplier invoice parsing engine and
image-resolution pipeline of the filament-tracker repository.

The Python sources under `src/` are shallowly embedded here:

* `src/parsers/bambu.py`, `jaycar.py`, `ebay.py`, `generic.py` and
  `src/parsers/__init__.py` become the namespaces `Bambu`, `Jaycar`, `Ebay`,
  `Generic` and the dispatcher `parse_invoice`;
* the thumbnail-assignment portion of `ingest_one` in `src/ingest.py`
  (embedded images, rendered-page crops, mapped images, placeholders)
  becomes `Ingest.ingestImages`, a pure function over an explicit
  file-system state, modelling the happy path in which every image write
  succeeds;
* `_color_from_variant` in `src/render_and_crop.py` becomes
  `Render.color_from_variant`, with a full MD5 implementation standing in
  for `hashlib.md5`.

Python's `re` patterns are embedded as hand-written character-list matchers
that mirror the backtracking semantics of each concrete pattern
(leftmost-first scanning, greedy/lazy quantifiers, word boundaries).
Character classes are modelled at ASCII granularity, which coincides with
Python semantics on ASCII text. Floating-point confidence scores are
modelled as exact rationals, which is faithful because the code only ever
assigns and compares these literal constants.
-/

namespace S2P

/-- ASCII lowercase conversion of one character (Python `str.lower` on ASCII). -/
def lowerChar (c : Char) : Char :=
  if 65 ≤ c.toNat ∧ c.toNat ≤ 90 then Char.ofNat (c.toNat + 32) else c

/-- ASCII uppercase conversion of one character (Python `str.upper` on ASCII). -/
def upperChar (c : Char) : Char :=
  if 97 ≤ c.toNat ∧ c.toNat ≤ 122 then Char.ofNat (c.toNat - 32) else c

/-- Python `\s` (ASCII range): space, tab, newline, carriage return, vertical tab, form feed. -/
def isWsC (c : Char) : Bool :=
  c = ' ' || c = '\t' || c = '\n' || c = '\r' || c.toNat = 11 || c.toNat = 12

/-- Regex class `[0-9]`. -/
def isDigitA (c : Char) : Bool := 48 ≤ c.toNat && c.toNat ≤ 57

/-- Regex class `[A-Z]`. -/
def isUpperA (c : Char) : Bool := 65 ≤ c.toNat && c.toNat ≤ 90

/-- Regex class `[a-z]`. -/
def isLowerA (c : Char) : Bool := 97 ≤ c.toNat && c.toNat ≤ 122

/-- Regex class `[A-Za-z]`. -/
def isAlphaA (c : Char) : Bool := isUpperA c || isLowerA c

/-- Regex class `[A-Za-z0-9]`. -/
def isAlnumA (c : Char) : Bool := isAlphaA c || isDigitA c

/-- Regex class `\w` (ASCII): letters, digits, underscore. Used for `\b` boundaries. -/
def isWordC (c : Char) : Bool := isAlnumA c || c = '_'

/-- Regex class `[A-Z0-9]`. -/
def isU0 (c : Char) : Bool := isUpperA c || isDigitA c

/-- `leadsWith hay pat`: `pat` is an initial segment of `hay`. -/
def leadsWith : List Char → List Char → Bool
  | _, [] => true
  | [], _ :: _ => false
  | a :: as, b :: bs => a = b && leadsWith as bs

/-- Case-insensitive `leadsWith` (both sides lowered characterwise). -/
def ciLeads : List Char → List Char → Bool
  | _, [] => true
  | [], _ :: _ => false
  | a :: as, b :: bs => lowerChar a = lowerChar b && ciLeads as bs

/-- `hasSub hay pat`: `pat` occurs as a contiguous segment of `hay` (Python `in`). -/
def hasSub (hay pat : List Char) : Bool :=
  leadsWith hay pat ||
    match hay with
    | [] => false
    | _ :: t => hasSub t pat

def lowerL (l : List Char) : List Char := l.map lowerChar

def upperL (l : List Char) : List Char := l.map upperChar

def strOf (l : List Char) : String := String.mk l

def chars (s : String) : List Char := s.data

/-- Case-insensitive substring test (Python `pat.lower() in hay.lower()`). -/
def hasSubCI (hay pat : List Char) : Bool := hasSub (lowerL hay) (lowerL pat)

def normWsAux : Bool → List Char → List Char
  | _, [] => []
  | prevWs, c :: rest =>
    if isWsC c then
      if prevWs then normWsAux true rest else ' ' :: normWsAux true rest
    else c :: normWsAux false rest

/-- Models `re.sub(r"\s+", " ", text)`: each maximal whitespace run becomes one space. -/
def normWs (l : List Char) : List Char := normWsAux false l

/-- Python `str.strip()`: drop leading and trailing whitespace. -/
def stripChars (l : List Char) : List Char :=
  (((l.dropWhile isWsC).reverse).dropWhile isWsC).reverse

/-- Python `int` on a digit string. -/
def digitsToNat (ds : List Char) : Nat := ds.foldl (fun n c => n * 10 + (c.toNat - 48)) 0

/-- `\b` seen from the left: the previous character (if any) is a non-word character.
Used only at positions where the next character is a word character. -/
def boundaryL : Option Char → Bool
  | none => true
  | some c => !isWordC c

/-- `\b` seen from the right: the next character (if any) is a non-word character.
Used only at positions where the preceding character is a word character. -/
def boundaryR : List Char → Bool
  | [] => true
  | c :: _ => !isWordC c

/-- Maximal run of characters satisfying `p`, with the remainder. -/
def runOf (p : Char → Bool) (l : List Char) : List Char × List Char :=
  (l.takeWhile p, l.dropWhile p)

/-- Left-to-right regex scan (`re.finditer`): at each position try the matcher
(which receives the previous character for `\b` tests and returns a payload plus
the number of characters consumed); on a match emit it and continue scanning
after its end, so matches are non-overlapping. All matchers used here consume
at least one character, so `length + 1` fuel suffices. -/
def scanA {α : Type} (m : Option Char → List Char → Option (α × Nat)) :
    Nat → Option Char → Nat → List Char → List (Nat × α)
  | 0, _, _, _ => []
  | _ + 1, _, _, [] => []
  | fuel + 1, prev, pos, c :: rest =>
    match m prev (c :: rest) with
    | some (a, n) =>
      (pos, a) :: scanA m fuel (((c :: rest).drop (n - 1)).head?) (pos + n) ((c :: rest).drop n)
    | none => scanA m fuel (some c) (pos + 1) rest

def scan {α : Type} (m : Option Char → List Char → Option (α × Nat)) (l : List Char) :
    List (Nat × α) := scanA m (l.length + 1) none 0 l

/-- Leftmost regex search (`re.search`): try the matcher at each position left to
right, returning the first success. -/
def searchA {α : Type} (m : Option Char → List Char → Option α) :
    Option Char → List Char → Option α
  | _, [] => none
  | prev, c :: rest =>
    match m prev (c :: rest) with
    | some a => some a
    | none => searchA m (some c) rest

def search {α : Type} (m : Option Char → List Char → Option α) (l : List Char) : Option α :=
  searchA m none l

/-- Whole-word case-insensitive search for `w` (models `re.search(rf"\b{w}\b", l, re.I)`
for a word `w` made of word characters). -/
def wordSearchCI (w : List Char) (l : List Char) : Bool :=
  (search (fun prev s =>
    if boundaryL prev && ciLeads s w && boundaryR (s.drop w.length) then some () else none) l).isSome

/-- Python `str.endswith`. -/
def endsWithL (l pat : List Char) : Bool := leadsWith l.reverse pat.reverse

/-- One parsed invoice line (the dict built by each supplier parser). -/
structure Line where
  sku : String
  manufacturer : String
  material : String
  variant : String
  pack : String
  qtyKg : Nat
deriving DecidableEq, Repr

/-- `ParseResult` from `src/parsers/base.py`. -/
structure ParseResult where
  supplier : String
  lines : List Line
  confidence : ℚ
deriving DecidableEq, Repr

/-- Insert into an insertion-ordered unique-key map represented as a list
(Python `dict` keyed by `sku`): if a line with the same sku exists, the first
such entry is replaced in place by `choose old new`; otherwise append. -/
def upsertBy (choose : Line → Line → Line) (x : Line) : List Line → List Line
  | [] => [x]
  | y :: ys => if y.sku = x.sku then choose y x :: ys else y :: upsertBy choose x ys

/-- Fold a line list into the dict, then read the values back in insertion order. -/
def dedupBy (choose : Line → Line → Line) (ls : List Line) : List Line :=
  ls.foldl (fun acc x => upsertBy choose x acc) []

/-- The variant-pattern body class `[A-Za-z0-9 +\-\/]`. -/
def isVClass (c : Char) : Bool :=
  isAlnumA c || c = ' ' || c = '+' || c = '-' || c = '/'

/-- Tail of the variant pattern: `\s*\(\d{lo,hi}\)`. Returns characters consumed.
The parenthesis is not whitespace and a digit cannot follow a maximal digit run,
so greedy matching here is deterministic. -/
def vtail (lo hi : Nat) (l : List Char) : Option Nat :=
  let (sp, r) := runOf isWsC l
  match r with
  | '(' :: r2 =>
    let (ds, r3) := runOf isDigitA r2
    if lo ≤ ds.length && ds.length ≤ hi then
      match r3 with
      | ')' :: _ => some (sp.length + 1 + ds.length + 1)
      | _ => none
    else none
  | _ => none

/-- Greedy `[A-Za-z0-9 +\-\/]*` followed by `vtail`, with backtracking: consume
as many class characters as possible, retrying the tail at each earlier
position on failure (Python's greedy `+` semantics). Returns characters consumed. -/
def vgo (lo hi : Nat) : List Char → Option Nat
  | [] => vtail lo hi []
  | c :: rest =>
    if isVClass c then
      match vgo lo hi rest with
      | some n => some (n + 1)
      | none => vtail lo hi (c :: rest)
    else vtail lo hi (c :: rest)

/-- Matcher for `([A-Za-z][A-Za-z0-9 +\-\/]+)\s*\(\d{lo,hi}\)` at one position;
returns `group(0)` of the match. -/
def variantAt (lo hi : Nat) (_prev : Option Char) (l : List Char) : Option (List Char) :=
  match l with
  | c0 :: c1 :: rest =>
    if isAlphaA c0 && isVClass c1 then
      match vgo lo hi rest with
      | some n => some (c0 :: c1 :: rest.take n)
      | none => none
    else none
  | _ => none

/-- Matcher for `\bQty[: ]\s*(\d+)\b` (case-insensitive; `kw` generalises over
`Qty`/`Quantity`); returns the digit group. After a maximal digit run the `\b`
fails exactly when the next character is a word character. -/
def qtyKwAt (kw : List Char) (prev : Option Char) (l : List Char) : Option (List Char) :=
  if boundaryL prev && ciLeads l kw then
    match l.drop kw.length with
    | c :: r =>
      if c = ':' || c = ' ' then
        let (_, r2) := runOf isWsC r
        let (ds, r3) := runOf isDigitA r2
        if !ds.isEmpty && boundaryR r3 then some ds else none
      else none
    | [] => none
  else none

/-- Matcher for `(\d+)\s*x\s*1\.0?\s*kg\b` (case-insensitive); returns the digit group. -/
def qtyX1kgAt (_prev : Option Char) (l : List Char) : Option (List Char) :=
  let (ds, r) := runOf isDigitA l
  if ds.isEmpty then none
  else
    let (_, r2) := runOf isWsC r
    match r2 with
    | x :: r3 =>
      if lowerChar x = 'x' then
        let (_, r4) := runOf isWsC r3
        match r4 with
        | '1' :: '.' :: r6 =>
          let r7 := match r6 with
            | '0' :: r6' => r6'
            | _ => r6
          let (_, r8) := runOf isWsC r7
          match r8 with
          | k :: g :: r9 =>
            if lowerChar k = 'k' && lowerChar g = 'g' && boundaryR r9 then some ds else none
          | _ => none
        | _ => none
      else none
    | [] => none

/-- The quantity pattern of `bambu.py` and `generic.py`:
`\bQty[: ]\s*(\d+)\b|\bQuantity[: ]\s*(\d+)\b|(\d+)\s*x\s*1\.0?\s*kg\b` with `re.I`;
alternatives are tried in order at each position. -/
def qtyAt (prev : Option Char) (l : List Char) : Option (List Char) :=
  match qtyKwAt (chars "qty") prev l with
  | some ds => some ds
  | none =>
    match qtyKwAt (chars "quantity") prev l with
    | some ds => some ds
    | none => qtyX1kgAt prev l

/-- `qty_kg` extraction shared by `bambu.py` and `generic.py`: default 1. -/
def qtyOf (ctx : List Char) : Nat :=
  match search qtyAt ctx with
  | some ds => digitsToNat ds
  | none => 1

/-- `re.match(r"\s*([A-Za-z][A-Za-z0-9+\-]*)", name)` used by `jaycar.py` and
`generic.py` for the manufacturer; `"Unknown"` when it does not match. -/
def manufacturer_from_name (name : String) : String :=
  let l := (chars name).dropWhile isWsC
  match l with
  | c :: rest =>
    if isAlphaA c then
      strOf (c :: rest.takeWhile (fun d => isAlphaA d || isDigitA d || d = '+' || d = '-'))
    else "Unknown"
  | [] => "Unknown"

namespace Bambu

/-- `normalize_sku` from `bambu.py`: `sku.strip().upper()`. -/
def normalize_sku (s : String) : String := strOf (upperL (stripChars (chars s)))

/-- `detect` from `bambu.py`. -/
def detect (text : String) : Bool :=
  let low := lowerL (chars text)
  hasSub low (chars "bambu lab") || hasSub low (chars "tuozhu technology") ||
    hasSub low (chars "au.store.bambulab.com") || hasSub low (chars "invoice number: bblau")

/-- `[A-Z0-9]{1,2}-` segment of the SKU grammar: greedy, try two class characters
then the hyphen, else one. Returns the consumed characters (hyphen included). -/
def seg2 : List Char → Option (List Char × List Char)
  | a :: b :: rest =>
    if isU0 a && isU0 b then
      match rest with
      | '-' :: r2 => some ([a, b, '-'], r2)
      | _ => none
    else if isU0 a && b = '-' then some ([a, b], rest)
    else none
  | _ => none

/-- Literal `1\.75-` segment. -/
def lit175 : List Char → Option (List Char)
  | '1' :: '.' :: '7' :: '5' :: '-' :: r => some r
  | _ => none

/-- `\d{4}-` segment. -/
def dig4 : List Char → Option (List Char × List Char)
  | a :: b :: c :: d :: '-' :: r =>
    if isDigitA a && isDigitA b && isDigitA c && isDigitA d then some ([a, b, c, d, '-'], r)
    else none
  | _ => none

/-- Trailing `[A-Za-z0-9]+\b`: a maximal nonempty alphanumeric run whose
following character is not a word character. -/
def tailRun (l : List Char) : Option (List Char × List Char) :=
  let (t, r) := runOf isAlnumA l
  if !t.isEmpty && boundaryR r then some (t, r) else none

/-- Matcher for the SKU pattern
`\b([A-Z]\d{2}-[A-Z0-9]{1,2}-1\.75-\d{4}-[A-Za-z0-9]+)\b` at one position.
The payload is the leading letter and the remaining matched characters;
the consumed count is the full match length. -/
def skuAt (prev : Option Char) (l : List Char) : Option ((Char × List Char) × Nat) :=
  match l with
  | c0 :: l1 =>
    if boundaryL prev && isUpperA c0 then
      match l1 with
      | d1 :: d2 :: '-' :: l3 =>
        if isDigitA d1 && isDigitA d2 then
          match seg2 l3 with
          | some (s2, l4) =>
            match lit175 l4 with
            | some l5 =>
              match dig4 l5 with
              | some (d4, l6) =>
                match tailRun l6 with
                | some (t, _) =>
                  let body := d1 :: d2 :: '-' ::
                    (s2 ++ ('1' :: '.' :: '7' :: '5' :: '-' :: (d4 ++ t)))
                  some ((c0, body), body.length + 1)
                | none => none
              | none => none
            | none => none
          | none => none
        else none
      | _ => none
    else none
  | [] => none

/-- The ordered material checks of `bambu.py` over one context window. -/
def materialOf (ctx : List Char) : String :=
  if hasSubCI ctx (chars "PLA Silk") then "PLA Silk+"
  else if hasSubCI ctx (chars "PLA Matte") then "PLA Matte"
  else if hasSubCI ctx (chars "PLA Translucent") then "PLA Translucent"
  else if wordSearchCI (chars "PLA") ctx then "PLA Basic"
  else if wordSearchCI (chars "ABS") ctx then "ABS"
  else "Unknown"

/-- Variant extraction of `bambu.py`: first match of
`([A-Za-z][A-Za-z0-9 +\-\/]+)\s*\(\d{5}\)`, stripped `group(0)`; else `"Unknown"`. -/
def variantOf (ctx : List Char) : String :=
  match search (variantAt 5 5) ctx with
  | some m => strOf (stripChars m)
  | none => "Unknown"

/-- Pack classification of `bambu.py`. -/
def packOf (sku : String) (ctx : List Char) : String :=
  if endsWithL (chars sku) (chars "-SPLFREE") then "Refill"
  else if endsWithL (chars sku) (chars "-SPL") then "Spool"
  else if wordSearchCI (chars "refill") ctx then "Refill"
  else "Spool"

/-- Build the line dict for one SKU match at position `pos` of the normalized text:
context window is 120 characters before the match and 220 after it. -/
def mkLine (norm : List Char) (hit : Nat × (Char × List Char)) : Line :=
  let pos := hit.1
  let skuChars := hit.2.1 :: hit.2.2
  let sku := normalize_sku (strOf skuChars)
  let st := pos - 120
  let en := pos + skuChars.length + 220
  let ctx := (norm.drop st).take (en - st)
  { sku := sku, manufacturer := "Bambu Lab", material := materialOf ctx,
    variant := variantOf ctx, pack := packOf sku ctx, qtyKg := qtyOf ctx }

/-- Number of `"Unknown"` values among the material and variant fields. -/
def unknowns (l : Line) : Nat :=
  (if l.material = "Unknown" then 1 else 0) + (if l.variant = "Unknown" then 1 else 0)

/-- Collision rule of `bambu.py`'s dedup loop: the new line replaces the stored
one only when it has strictly fewer `"Unknown"` fields. -/
def choose (existing current : Line) : Line :=
  if unknowns current < unknowns existing then current else existing

/-- The extraction loop of `bambu.py` before deduplication. -/
def extract (text : String) : List Line :=
  let norm := normWs (chars text)
  (scan skuAt norm).map (mkLine norm)

/-- `parse` from `bambu.py`. -/
def parse (text : String) : ParseResult :=
  let deduped := dedupBy choose (extract text)
  { supplier := "bambu", lines := deduped,
    confidence := if deduped.isEmpty then 0.2 else 0.95 }

end Bambu

namespace Jaycar

/-- `detect` from `jaycar.py`. -/
def detect (text : String) : Bool :=
  let low := lowerL (chars text)
  hasSub low (chars "jaycar pty ltd") || hasSub low (chars "help.jaycar.com.au") ||
    hasSub low (chars "tax invoice number")

/-- `_material_from_name` from `jaycar.py`: ordered substring checks on the
uppercased product name. -/
def material_from_name (name : String) : String :=
  let u := upperL (chars name)
  if hasSub u (chars "SILK PLA") || hasSub u (chars "PLA+") then "PLA Silk+"
  else if hasSub u (chars "PLA PLUS") then "PLA+"
  else if hasSub u (chars "PLA") then "PLA"
  else if hasSub u (chars "PETG") then "PETG"
  else if hasSub u (chars "ABS") then "ABS"
  else if hasSub u (chars "TPU") then "TPU"
  else if hasSub u (chars "NYLON") then "Nylon"
  else "Unknown"

/-- One row match of the pattern
`\b([A-Z]{2}\d{3,5})\b\s+(.+?)\s+(\d+)\s+\$[0-9]+(?:\.[0-9]{2})?\s+\$[0-9]+(?:\.[0-9]{2})?`
(with `re.IGNORECASE`): the code characters, the raw lazy name group, and the
quantity digit group. -/
structure Row where
  c1 : Char
  c2 : Char
  digits : List Char
  rawName : List Char
  qtyDigits : List Char
deriving DecidableEq, Repr

/-- `\$[0-9]+(?:\.[0-9]{2})?`: a price literal; returns characters consumed.
The optional cents group is greedy; failing later in the row cannot be rescued
by dropping it (the next row component `\s+` can never match at a `.`), so
taking it whenever present is faithful. -/
def priceAt (l : List Char) : Option Nat :=
  match l with
  | '$' :: r =>
    let (p, r2) := runOf isDigitA r
    if p.isEmpty then none
    else
      match r2 with
      | '.' :: a :: b :: _ =>
        if isDigitA a && isDigitA b then some (1 + p.length + 3) else some (1 + p.length)
      | _ => some (1 + p.length)
  | _ => none

/-- `\s+(\d+)\s+\$…\s+\$…` after the lazy name group: returns the quantity
digits and characters consumed. Each greedy run here is deterministic because
the character that must follow it cannot occur inside it. -/
def afterName (l : List Char) : Option (List Char × Nat) :=
  let (w2, r2) := runOf isWsC l
  if w2.isEmpty then none
  else
    let (ds, r3) := runOf isDigitA r2
    if ds.isEmpty then none
    else
      let (w3, r4) := runOf isWsC r3
      if w3.isEmpty then none
      else
        match priceAt r4 with
        | none => none
        | some n1 =>
          let r5 := r4.drop n1
          let (w4, r6) := runOf isWsC r5
          if w4.isEmpty then none
          else
            match priceAt r6 with
            | none => none
            | some n2 =>
              some (ds, w2.length + ds.length + w3.length + n1 + w4.length + n2)

/-- The lazy name group `(.+?)`: grow the name one character at a time (never
across a newline), trying `afterName` after each extension; the first success
wins. Returns the name, the quantity digits, and characters consumed. -/
def nameLoop : List Char → List Char → Option (List Char × List Char × Nat)
  | _, [] => none
  | accRev, c :: rest =>
    if c = '\n' then none
    else
      match afterName rest with
      | some (ds, n) => some ((c :: accRev).reverse, ds, accRev.length + 1 + n)
      | none => nameLoop (c :: accRev) rest

/-- Greedy `\s+` before the name group: try taking `k` whitespace characters,
largest first (smaller counts leave leading whitespace to be consumed by the
lazy `.` of the name). -/
def ws1Loop : Nat → List Char → Option (List Char × List Char × Nat)
  | 0, _ => none
  | k + 1, l =>
    match nameLoop [] (l.drop (k + 1)) with
    | some (nm, ds, n) => some (nm, ds, k + 1 + n)
    | none => ws1Loop k l

/-- Row matcher at one position (previous character supplied for `\b`). -/
def rowAt (prev : Option Char) (l : List Char) : Option (Row × Nat) :=
  match l with
  | c1 :: c2 :: r =>
    if boundaryL prev && isAlphaA c1 && isAlphaA c2 then
      let (ds, r2) := runOf isDigitA r
      if 3 ≤ ds.length && ds.length ≤ 5 && boundaryR r2 then
        let (w1, _) := runOf isWsC r2
        if w1.isEmpty then none
        else
          match ws1Loop w1.length r2 with
          | some (nm, qd, n) =>
            some ({ c1 := c1, c2 := c2, digits := ds, rawName := nm, qtyDigits := qd },
                  2 + ds.length + n)
          | none => none
      else none
    else none
  | _ => none

/-- The filament-keyword gate of `jaycar.py` on the normalized product name:
`"FILAMENT" in nu or " PLA" in f" {nu}" or "PETG" in nu or " ABS" in f" {nu}"
or "TPU" in nu or "NYLON" in nu`. -/
def is_filament (name : String) : Bool :=
  let nu := upperL (chars name)
  hasSub nu (chars "FILAMENT") || hasSub (' ' :: nu) (chars " PLA") ||
    hasSub nu (chars "PETG") || hasSub (' ' :: nu) (chars " ABS") ||
    hasSub nu (chars "TPU") || hasSub nu (chars "NYLON")

/-- Loop body of `jaycar.py`'s parse for one matched row: the row is dropped
when the name has no filament keyword, otherwise it becomes a line dict. -/
def lineOfRow (row : Row) : Option Line :=
  let code := strOf (upperL (row.c1 :: row.c2 :: row.digits))
  let name := strOf (stripChars (normWs row.rawName))
  if is_filament name then
    some { sku := code, manufacturer := manufacturer_from_name name,
           material := material_from_name name, variant := name,
           pack := if hasSub (upperL (chars name)) (chars "SPOOL-LESS") ||
                      hasSub (upperL (chars name)) (chars "SPOOLLESS") then "Refill"
                   else "Spool",
           qtyKg := digitsToNat row.qtyDigits }
  else none

/-- `parse` from `jaycar.py` (applied to the raw, un-normalized text; no dedup). -/
def parse (text : String) : ParseResult :=
  let lines := (scan rowAt (chars text)).filterMap (fun p => lineOfRow p.2)
  { supplier := "jaycar", lines := lines,
    confidence := if lines.isEmpty then 0.2 else 0.9 }

end Jaycar

namespace Ebay

/-- `detect` from `ebay.py`. -/
def detect (text : String) : Bool :=
  let low := lowerL (chars text)
  hasSub low (chars "ebay") || hasSub low (chars "order details")

/-- Matcher for `\b([A-Z]{1,4}[0-9]{2,8}(?:-[A-Z0-9]+)?)\b` at one position.
A letter run longer than 4 can never match (every shorter prefix is followed by
a letter, not a digit), a digit run longer than 8 can never match (`\b` fails on
every retraction), and when the optional suffix ends at a word character the
only viable backtrack is to drop the suffix entirely (the hyphen satisfies `\b`). -/
def skuAt (prev : Option Char) (l : List Char) : Option ((Char × List Char) × Nat) :=
  match l with
  | c0 :: _ =>
    if boundaryL prev && isUpperA c0 then
      let (ls, r1) := runOf isUpperA l
      if ls.length ≤ 4 then
        let (ds, r2) := runOf isDigitA r1
        if 2 ≤ ds.length && ds.length ≤ 8 then
          match r2 with
          | '-' :: r3 =>
            let (us, r4) := runOf isU0 r3
            if !us.isEmpty && boundaryR r4 then
              some ((c0, ls.tail ++ ds ++ '-' :: us), ls.length + ds.length + 1 + us.length)
            else some ((c0, ls.tail ++ ds), ls.length + ds.length)
          | _ =>
            if boundaryR r2 then some ((c0, ls.tail ++ ds), ls.length + ds.length) else none
        else none
      else none
    else none
  | [] => none

/-- The ordered material keyword loop of `ebay.py` (first whole-word match wins). -/
def materialOf (ctx : List Char) : String :=
  if wordSearchCI (chars "PLA") ctx then "PLA"
  else if wordSearchCI (chars "PETG") ctx then "PETG"
  else if wordSearchCI (chars "ABS") ctx then "ABS"
  else if wordSearchCI (chars "ASA") ctx then "ASA"
  else if wordSearchCI (chars "TPU") ctx then "TPU"
  else if wordSearchCI (chars "NYLON") ctx then "NYLON"
  else "Unknown"

/-- Matcher for `([A-Za-z][A-Za-z0-9 +\-\/]{6,80})`: a letter followed by a
greedy class run of length 6 to 80 (no trailing requirement, so deterministic). -/
def variantAt (_prev : Option Char) (l : List Char) : Option (List Char) :=
  match l with
  | c0 :: rest =>
    if isAlphaA c0 then
      let (run, _) := runOf isVClass rest
      if 6 ≤ run.length then some (c0 :: run.take 80) else none
    else none
  | [] => none

/-- Loop body of `ebay.py`'s parse for one SKU match. -/
def mkLine (norm : List Char) (hit : Nat × (Char × List Char)) : Option Line :=
  let skuChars := hit.2.1 :: hit.2.2
  let sku := strOf (upperL skuChars)
  if sku = "EBAY" || sku = "ORDER" then none
  else
    let st := hit.1 - 120
    let en := hit.1 + skuChars.length + 240
    let ctx := (norm.drop st).take (en - st)
    let material := materialOf ctx
    if material = "Unknown" then none
    else
      let variant :=
        match search variantAt ctx with
        | some v => strOf (stripChars v)
        | none => "eBay Item " ++ sku
      some { sku := sku, manufacturer := "SUNLU", material := material,
             variant := variant, pack := "Unknown", qtyKg := 1 }

/-- `parse` from `ebay.py`: scan the whitespace-normalized text, then dedup by
sku with last-seen-wins values (the dict comprehension keyed by sku). -/
def parse (text : String) : ParseResult :=
  let norm := normWs (chars text)
  let lines := (scan skuAt norm).filterMap (mkLine norm)
  let deduped := dedupBy (fun _ x => x) lines
  { supplier := "ebay", lines := deduped,
    confidence := if deduped.isEmpty then 0.3 else 0.65 }

end Ebay

namespace Generic

/-- `normalize_sku` from `generic.py` (identical to the Bambu one). -/
def normalize_sku (s : String) : String := strOf (upperL (stripChars (chars s)))

/-- `detect` from `generic.py`: always true. -/
def detect (_text : String) : Bool := true

/-- The `\.?[0-9]*` part of the third SKU segment: an optional dot followed by
a greedy digit run. Returns the consumed characters and the remainder. -/
def dotDigits : List Char → List Char × List Char
  | '.' :: r =>
    let (d2, r2) := runOf isDigitA r
    ('.' :: d2, r2)
  | l => ([], l)

/-- Matcher for
`\b([A-Z0-9]{2,6}-[A-Z0-9]{1,4}-[0-9]+\.?[0-9]*-[0-9]{3,5}-[A-Za-z0-9]+)\b`
at one position. Bounded class runs followed by a hyphen are deterministic
(retracting a maximal run leaves a class character where the hyphen must be),
as is the `[0-9]+\.?[0-9]*` segment. -/
def skuAt (prev : Option Char) (l : List Char) : Option ((Char × List Char) × Nat) :=
  match l with
  | c0 :: _ =>
    if boundaryL prev && isU0 c0 then
      let (s1, r1) := runOf isU0 l
      if 2 ≤ s1.length && s1.length ≤ 6 then
        match r1 with
        | '-' :: r2 =>
          let (s2, r3) := runOf isU0 r2
          if 1 ≤ s2.length && s2.length ≤ 4 then
            match r3 with
            | '-' :: r4 =>
              let (d1, r5) := runOf isDigitA r4
              if d1.isEmpty then none
              else
                let mid := dotDigits r5
                match mid.2 with
                | '-' :: r7 =>
                  let (s4, r8) := runOf isDigitA r7
                  if 3 ≤ s4.length && s4.length ≤ 5 then
                    match r8 with
                    | '-' :: r9 =>
                      let (t, r10) := runOf isAlnumA r9
                      if !t.isEmpty && boundaryR r10 then
                        some ((c0, s1.tail ++ '-' :: (s2 ++ '-' :: (d1 ++ mid.1 ++
                                '-' :: (s4 ++ '-' :: t)))),
                              s1.length + 1 + s2.length + 1 + d1.length + mid.1.length +
                                1 + s4.length + 1 + t.length)
                      else none
                    | _ => none
                  else none
                | _ => none
            | _ => none
          else none
        | _ => none
      else none
    else none
  | [] => none

/-- Variant extraction of `generic.py`: first match of
`([A-Za-z][A-Za-z0-9 +\-\/]+)\s*\(\d{3,8}\)`, stripped `group(0)`; else `"Unknown"`. -/
def variantOf (ctx : List Char) : String :=
  match search (variantAt 3 8) ctx with
  | some m => strOf (stripChars m)
  | none => "Unknown"

/-- The ordered material keyword loop of `generic.py` (same list as `ebay.py`). -/
def materialOf (ctx : List Char) : String :=
  if wordSearchCI (chars "PLA") ctx then "PLA"
  else if wordSearchCI (chars "PETG") ctx then "PETG"
  else if wordSearchCI (chars "ABS") ctx then "ABS"
  else if wordSearchCI (chars "ASA") ctx then "ASA"
  else if wordSearchCI (chars "TPU") ctx then "TPU"
  else if wordSearchCI (chars "NYLON") ctx then "NYLON"
  else "Unknown"

/-- Loop body of `generic.py`'s parse for one SKU match. -/
def mkLine (norm : List Char) (hit : Nat × (Char × List Char)) : Line :=
  let skuChars := hit.2.1 :: hit.2.2
  let sku := normalize_sku (strOf skuChars)
  let st := hit.1 - 120
  let en := hit.1 + skuChars.length + 220
  let ctx := (norm.drop st).take (en - st)
  let variant := variantOf ctx
  let manufacturer := if variant ≠ "Unknown" then manufacturer_from_name variant else "Unknown"
  { sku := sku, manufacturer := manufacturer, material := materialOf ctx,
    variant := variant,
    pack := if wordSearchCI (chars "refill") ctx || endsWithL (chars sku) (chars "-SPLFREE")
            then "Refill" else "Spool",
    qtyKg := qtyOf ctx }

/-- `parse` from `generic.py`: scan the whitespace-normalized text, then dedup
by sku with last-seen-wins values. -/
def parse (text : String) : ParseResult :=
  let norm := normWs (chars text)
  let lines := (scan skuAt norm).map (mkLine norm)
  let deduped := dedupBy (fun _ x => x) lines
  { supplier := "generic", lines := deduped,
    confidence := if deduped.isEmpty then 0.1 else 0.6 }

end Generic

/-- `parse_invoice` from `src/parsers/__init__.py`: fixed priority chain
Bambu, Jaycar, eBay, then the catch-all generic parser. -/
def parse_invoice (text : String) : ParseResult :=
  if Bambu.detect text then Bambu.parse text
  else if Jaycar.detect text then Jaycar.parse text
  else if Ebay.detect text then Ebay.parse text
  else Generic.parse text

def strUpper (s : String) : String := strOf (upperL (chars s))

namespace Ingest

/-- Where a SKU's thumbnail file last came from: the embedded product image of a
given index, a rendered-page crop, an externally mapped image source, or a
synthetic placeholder. -/
inductive ThumbSrc where
  | embedded (idx : Nat)
  | cropped
  | mapped (src : String)
  | placeholder
deriving DecidableEq, Repr

/-- The thumbnail directory, as a map from file key (the name the code writes,
`f"{sku}.png"`) to the last image written there. -/
def FS : Type := String → Option ThumbSrc

def fsSet (fs : FS) (k : String) (v : ThumbSrc) : FS :=
  fun k' => if k' = k then some v else fs k'

/-- State threaded through the image-resolution part of `ingest_one`:
the thumbnail files plus the `embedded_skus` and `mapped_skus` sets. -/
structure St where
  fs : FS
  embedded : List String
  mapped : List String

/-- Strategy 1 of `ingest_one` (happy path: every save succeeds): the i-th line
gets the i-th qualifying embedded image; the loop breaks once images run out. -/
def phase1 (numImages : Nat) (lines : List Line) (st : St) : St :=
  lines.enum.foldl (fun st p =>
    if p.1 < numImages then
      { st with fs := fsSet st.fs p.2.sku (ThumbSrc.embedded p.1),
                embedded := strUpper p.2.sku :: st.embedded }
    else st) st

/-- Strategy 2 of `ingest_one` (happy path): crop the rendered first page for
every line. Only invoked when no embedded image was used and the supplier is
the structured-SKU one. -/
def phase2 (lines : List Line) (st : St) : St :=
  lines.foldl (fun st l => { st with fs := fsSet st.fs l.sku ThumbSrc.cropped }) st

/-- First-match lookup in the image map (a Python dict keyed by uppercase SKU). -/
def lookupStr : List (String × String) → String → Option String
  | [], _ => none
  | (k, v) :: rest, s => if k = s then some v else lookupStr rest s

/-- Strategy 3, `apply_image_map_for_lines` (happy path): write the mapped image
for every line whose uppercased sku has a non-falsy map entry, recording it in
`mapped_skus`. Runs unconditionally after strategies 1 and 2. -/
def phase3 (imap : List (String × String)) (lines : List Line) (st : St) : St :=
  lines.foldl (fun st l =>
    let sku := strUpper l.sku
    if sku = "" then st
    else
      match lookupStr imap sku with
      | none => st
      | some src =>
        if src = "" then st
        else { st with fs := fsSet st.fs sku (ThumbSrc.mapped src),
                       mapped := sku :: st.mapped }) st

/-- Strategy 4 of `ingest_one`: create a placeholder for every line whose sku is
in neither `embedded_skus` nor `mapped_skus`, skipping existing files unless the
supplier is one whose placeholders are refreshed on every run. -/
def phase4 (supplier : String) (lines : List Line) (st : St) : St :=
  lines.foldl (fun st l =>
    let sku := strUpper l.sku
    if sku = "" then st
    else if sku ∈ st.embedded ∨ sku ∈ st.mapped then st
    else if (st.fs sku).isSome ∧ ¬(supplier = "jaycar" ∨ supplier = "generic") then st
    else { st with fs := fsSet st.fs sku ThumbSrc.placeholder }) st

/-- The image-resolution portion of `ingest_one` (`src/ingest.py`), as a pure
function of the parsed lines, the number of qualifying embedded product images,
the optional image map, and the supplier tag, starting from an empty thumbnail
directory and assuming every individual image write succeeds. -/
def ingestImages (lines : List Line) (numImages : Nat) (imap : List (String × String))
    (supplier : String) : St :=
  let st0 : St := ⟨fun _ => none, [], []⟩
  let st1 := phase1 numImages lines st0
  let used := min lines.length numImages
  let st2 := if used = 0 ∧ supplier = "bambu" then phase2 lines st1 else st1
  let st3 := phase3 imap lines st2
  phase4 supplier lines st3

end Ingest

namespace Render

/-- UTF-8 encoding of one code point (Python `str.encode("utf-8")`). -/
def encodeCp (n : Nat) : List Nat :=
  if n ≤ 127 then [n]
  else if n ≤ 2047 then [192 + n / 64, 128 + n % 64]
  else if n ≤ 65535 then [224 + n / 4096, 128 + n / 64 % 64, 128 + n % 64]
  else [240 + n / 262144, 128 + n / 4096 % 64, 128 + n / 64 % 64, 128 + n % 64]

def utf8Bytes (s : String) : List Nat :=
  s.data.foldr (fun c acc => encodeCp c.toNat ++ acc) []

def M32 : Nat := 4294967296

/-- 32-bit left rotation on a value below `2^32`; the two shifted parts occupy
disjoint bit ranges, so addition coincides with bitwise or. -/
def rotl (x s : Nat) : Nat := (x * 2 ^ s) % M32 + x / 2 ^ (32 - s)

/-- The MD5 sine-derived constant table. -/
def Kt : List Nat :=
  [3614090360, 3905402710, 606105819, 3250441966, 4118548399, 1200080426, 2821735955, 4249261313,
   1770035416, 2336552879, 4294925233, 2304563134, 1804603682, 4254626195, 2792965006, 1236535329,
   4129170786, 3225465664, 643717713, 3921069994, 3593408605, 38016083, 3634488961, 3889429448,
   568446438, 3275163606, 4107603335, 1163531501, 2850285829, 4243563512, 1735328473, 2368359562,
   4294588738, 2272392833, 1839030562, 4259657740, 2763975236, 1272893353, 4139469664, 3200236656,
   681279174, 3936430074, 3572445317, 76029189, 3654602809, 3873151461, 530742520, 3299628645,
   4096336452, 1126891415, 2878612391, 4237533241, 1700485571, 2399980690, 4293915773, 2240044497,
   1873313359, 4264355552, 2734768916, 1309151649, 4149444226, 3174756917, 718787259, 3951481745]

/-- The MD5 per-round shift table. -/
def Sh : List Nat :=
  [7, 12, 17, 22, 7, 12, 17, 22, 7, 12, 17, 22, 7, 12, 17, 22,
   5, 9, 14, 20, 5, 9, 14, 20, 5, 9, 14, 20, 5, 9, 14, 20,
   4, 11, 16, 23, 4, 11, 16, 23, 4, 11, 16, 23, 4, 11, 16, 23,
   6, 10, 15, 21, 6, 10, 15, 21, 6, 10, 15, 21, 6, 10, 15, 21]

def byteAt (l : List Nat) (i : Nat) : Nat := l.getD i 0

/-- Little-endian 32-bit word `j` of a 64-byte block. -/
def wordAt (block : List Nat) (j : Nat) : Nat :=
  byteAt block (4 * j) + 256 * byteAt block (4 * j + 1) +
    65536 * byteAt block (4 * j + 2) + 16777216 * byteAt block (4 * j + 3)

/-- MD5 round function, by round index. -/
def md5F (i b c d : Nat) : Nat :=
  if i < 16 then Nat.lor (Nat.land b c) (Nat.land (Nat.xor b 4294967295) d)
  else if i < 32 then Nat.lor (Nat.land d b) (Nat.land (Nat.xor d 4294967295) c)
  else if i < 48 then Nat.xor b (Nat.xor c d)
  else Nat.xor c (Nat.lor b (Nat.xor d 4294967295))

/-- MD5 message-word schedule, by round index. -/
def md5G (i : Nat) : Nat :=
  if i < 16 then i
  else if i < 32 then (5 * i + 1) % 16
  else if i < 48 then (3 * i + 5) % 16
  else (7 * i) % 16

structure MD5St where
  a : Nat
  b : Nat
  c : Nat
  d : Nat

def md5Round (block : List Nat) (st : MD5St) (i : Nat) : MD5St :=
  let f := (md5F i st.b st.c st.d + st.a + Kt.getD i 0 + wordAt block (md5G i)) % M32
  ⟨st.d, (st.b + rotl f (Sh.getD i 0)) % M32, st.b, st.c⟩

def md5Block (st : MD5St) (block : List Nat) : MD5St :=
  let r := (List.range 64).foldl (md5Round block) st
  ⟨(st.a + r.a) % M32, (st.b + r.b) % M32, (st.c + r.c) % M32, (st.d + r.d) % M32⟩

/-- MD5 padding: a `0x80` byte, zeros to 56 mod 64, then the original bit
length as a 64-bit little-endian integer. -/
def md5Pad (msg : List Nat) : List Nat :=
  let len := msg.length
  let padZeros := (55 + 64 - len % 64) % 64
  let bitLen := len * 8 % 2 ^ 64
  msg ++ [128] ++ List.replicate padZeros 0 ++
    (List.range 8).map (fun i => bitLen / 2 ^ (8 * i) % 256)

def chunksF : Nat → List Nat → List (List Nat)
  | 0, _ => []
  | _ + 1, [] => []
  | fuel + 1, l => l.take 64 :: chunksF fuel (l.drop 64)

def le4 (x : Nat) : List Nat :=
  [x % 256, x / 256 % 256, x / 65536 % 256, x / 16777216 % 256]

/-- The 16-byte MD5 digest of a byte string (`hashlib.md5(...).digest()`). -/
def md5Digest (msg : List Nat) : List Nat :=
  let padded := md5Pad msg
  let st := (chunksF padded.length padded).foldl md5Block
    ⟨1732584193, 4023233417, 2562383102, 271733878⟩
  le4 st.a ++ le4 st.b ++ le4 st.c ++ le4 st.d

/-- The keyword palette of `_color_from_variant` in `src/render_and_crop.py`. -/
def palette : List (List String × (Nat × Nat × Nat)) :=
  [(["white", "bone white", "ivory"], (218, 222, 232)),
   (["black", "charcoal"], (50, 52, 60)),
   (["grey", "gray", "silver"], (120, 124, 136)),
   (["pink", "magenta", "sakura"], (190, 120, 170)),
   (["red", "crimson"], (176, 78, 78)),
   (["blue", "sky", "cyan"], (96, 120, 190)),
   (["green", "mint", "olive"], (102, 144, 82)),
   (["yellow", "lemon", "gold"], (182, 164, 88)),
   (["orange", "mandarin"], (196, 122, 72)),
   (["purple", "violet"], (126, 104, 176)),
   (["brown", "chocolate", "cocoa", "wood"], (116, 95, 82)),
   (["beige"], (178, 156, 120))]

/-- The palette loop: first entry any of whose keywords occurs in the lowered
variant text wins. -/
def paletteFind (low : List Char) : List (List String × (Nat × Nat × Nat)) →
    Option (Nat × Nat × Nat)
  | [] => none
  | (keys, color) :: rest =>
    if keys.any (fun k => hasSub low (chars k)) then some color else paletteFind low rest

/-- The hash fallback of `_color_from_variant`: a stable color derived from the
MD5 digest of the UTF-8 encoded SKU. -/
def hashColor (sku : String) : Nat × Nat × Nat :=
  let digest := md5Digest (utf8Bytes sku)
  (20 + digest.getD 0 0 / 2, 26 + digest.getD 1 0 / 2, 36 + digest.getD 2 0 / 2)

/-- `_color_from_variant` from `src/render_and_crop.py`. -/
def color_from_variant (variant sku : String) : Nat × Nat × Nat :=
  match paletteFind (lowerL (chars variant)) palette with
  | some c => c
  | none => hashColor sku

end Render

/-! ### Spec-side comparison definition and concrete test inputs -/

/-- Modelled from the spec's words, for comparison with the code's
`Jaycar.is_filament`: the keywords FILAMENT, PLA, PETG, ABS, TPU, NYLON
"matched as whole words to avoid false positives like PLAB". -/
def filamentKeywordWholeWord (name : String) : Bool :=
  ["FILAMENT", "PLA", "PETG", "ABS", "TPU", "NYLON"].any
    (fun k => wordSearchCI (chars k) (chars name))

/-- Bambu invoice text in which the same SKU occurs twice: once with a
material keyword in its 120-before/220-after context window and once (150
filler characters later) without. -/
def tC2 : String :=
  "PLA Basic A00-D0-1.75-1000-SPL" ++ strOf (List.replicate 150 '.') ++ "A00-D0-1.75-1000-SPL"

/-- The first extraction of `tC2`: its window sees `PLA`. -/
def aC2 : Line :=
  { sku := "A00-D0-1.75-1000-SPL", manufacturer := "Bambu Lab", material := "PLA Basic",
    variant := "Unknown", pack := "Spool", qtyKg := 1 }

/-- The second extraction of `tC2`: its window sees only filler. -/
def bC2 : Line :=
  { sku := "A00-D0-1.75-1000-SPL", manufacturer := "Bambu Lab", material := "Unknown",
    variant := "Unknown", pack := "Spool", qtyKg := 1 }

/-- A line item whose SKU has both an embedded product image (index 0) and an
image-map entry. -/
def lC3 : Line :=
  { sku := "AAA", manufacturer := "M", material := "PLA", variant := "v",
    pack := "Spool", qtyKg := 1 }

/-- The thumbnail state after ingesting `lC3` with one qualifying embedded
image and a map entry for its SKU. -/
def stC3 : Ingest.St := Ingest.ingestImages [lC3] 1 [("AAA", "img.png")] "ebay"

/-- The Jaycar end-to-end scenario text of the spec. -/
def tC4 : String := "Jaycar Pty Ltd TX1234 3mm Black PLA Filament 2 $20.00 $40.00"

/-- A Jaycar row whose name contains a filament keyword only inside the longer
word `PLAB`. -/
def tC5 : String := "Jaycar Pty Ltd AA111 PLAB Mount 2 $5.00 $10.00"

/-- A Jaycar invoice text in which the same row code appears twice. -/
def tC6 : String := "AA123 PLA Filament 1 $5.00 $5.00 AA123 PLA Filament 1 $5.00 $5.00"

/-! ### Basic facts about the string helpers -/

theorem strOf_ne_empty {l : List Char} (h : l ≠ []) : strOf l ≠ "" := by
  simpa [strOf, String.ext_iff] using h

theorem upperL_ne_nil {l : List Char} (h : l ≠ []) : upperL l ≠ [] := by
  simpa [upperL] using h

theorem dropWhile_ne_nil_of_mem {p : Char → Bool} {l : List Char} {c : Char}
    (hm : c ∈ l) (hc : p c = false) : l.dropWhile p ≠ [] := by
  intro he
  rw [List.dropWhile_eq_nil_iff] at he
  exact absurd (he c hm) (by simp [hc])

theorem stripChars_ne_nil {c : Char} {l : List Char} (hc : isWsC c = false) :
    stripChars (c :: l) ≠ [] := by
  unfold stripChars
  rw [List.dropWhile_cons_of_neg (by simp [hc])]
  have h1 : (c :: l).reverse.dropWhile isWsC ≠ [] :=
    dropWhile_ne_nil_of_mem (by simp) hc
  simpa using h1

theorem notWs_of_toNat_bounds {c : Char} (h1 : 33 ≤ c.toNat) : isWsC c = false := by
  have hsp : (' ' : Char).toNat = 32 := rfl
  have hta : ('\t' : Char).toNat = 9 := rfl
  have hnl : ('\n' : Char).toNat = 10 := rfl
  have hcr : ('\r' : Char).toNat = 13 := rfl
  unfold isWsC
  simp only [Bool.or_eq_false_iff, decide_eq_false_iff_not]
  refine ⟨⟨⟨⟨⟨?_, ?_⟩, ?_⟩, ?_⟩, ?_⟩, ?_⟩ <;>
    first
    | (intro he; subst he; omega)
    | omega

theorem notWs_of_isUpperA {c : Char} (h : isUpperA c = true) : isWsC c = false := by
  unfold isUpperA at h
  simp only [Bool.and_eq_true, decide_eq_true_eq] at h
  exact notWs_of_toNat_bounds (by omega)

theorem notWs_of_isU0 {c : Char} (h : isU0 c = true) : isWsC c = false := by
  unfold isU0 isUpperA isDigitA at h
  simp only [Bool.or_eq_true, Bool.and_eq_true, decide_eq_true_eq] at h
  rcases h with h | h <;> exact notWs_of_toNat_bounds (by omega)

/-! ### The dedup dictionary: membership, predicate preservation, uniqueness -/

theorem mem_upsertBy {choose : Line → Line → Line} {x z : Line} {acc : List Line}
    (hz : z ∈ upsertBy choose x acc) :
    z = x ∨ z ∈ acc ∨ ∃ y ∈ acc, z = choose y x := by
  induction acc with
  | nil => simp [upsertBy] at hz; simp [hz]
  | cons y ys ih =>
    unfold upsertBy at hz
    by_cases hsk : y.sku = x.sku
    · rw [if_pos hsk] at hz
      rcases List.mem_cons.mp hz with h | h
      · exact Or.inr (Or.inr ⟨y, by simp, h⟩)
      · exact Or.inr (Or.inl (List.mem_cons_of_mem _ h))
    · rw [if_neg hsk] at hz
      rcases List.mem_cons.mp hz with h | h
      · exact Or.inr (Or.inl (by simp [h]))
      · rcases ih h with h' | h' | ⟨w, hw, hw'⟩
        · exact Or.inl h'
        · exact Or.inr (Or.inl (List.mem_cons_of_mem _ h'))
        · exact Or.inr (Or.inr ⟨w, List.mem_cons_of_mem _ hw, hw'⟩)

theorem pred_upsertBy {P : Line → Prop} {choose : Line → Line → Line}
    (hch : ∀ y x, choose y x = y ∨ choose y x = x)
    {x : Line} {acc : List Line} (hacc : ∀ z ∈ acc, P z) (hx : P x) :
    ∀ z ∈ upsertBy choose x acc, P z := by
  intro z hz
  rcases mem_upsertBy hz with h | h | ⟨y, hy, hy'⟩
  · exact h ▸ hx
  · exact hacc z h
  · rcases hch y x with h' | h'
    · rw [hy', h']; exact hacc y hy
    · rw [hy', h']; exact hx

theorem pred_dedupBy {P : Line → Prop} {choose : Line → Line → Line}
    (hch : ∀ y x, choose y x = y ∨ choose y x = x)
    {ls : List Line} (h : ∀ x ∈ ls, P x) :
    ∀ z ∈ dedupBy choose ls, P z := by
  unfold dedupBy
  suffices haux : ∀ (xs acc : List Line), (∀ x ∈ xs, P x) → (∀ z ∈ acc, P z) →
      ∀ z ∈ xs.foldl (fun a x => upsertBy choose x a) acc, P z by
    exact haux ls [] h (by simp)
  intro xs
  induction xs with
  | nil => intro acc _ hacc; simpa using hacc
  | cons x xs ih =>
    intro acc hxs hacc
    simp only [List.foldl_cons]
    exact ih _ (fun w hw => hxs w (List.mem_cons_of_mem _ hw))
      (pred_upsertBy hch hacc (hxs x (by simp)))

theorem sku_choose_left {choose : Line → Line → Line}
    (hch : ∀ y x, choose y x = y ∨ choose y x = x)
    {y x : Line} (h : y.sku = x.sku) : (choose y x).sku = y.sku := by
  rcases hch y x with h' | h' <;> rw [h']; exact h.symm

theorem sku_mem_upsertBy {choose : Line → Line → Line} {x z : Line} {acc : List Line}
    (hz : z ∈ upsertBy choose x acc)
    (hch : ∀ y x, choose y x = y ∨ choose y x = x) :
    z.sku = x.sku ∨ z.sku ∈ acc.map Line.sku := by
  rcases mem_upsertBy hz with h | h | ⟨y, hy, hy'⟩
  · exact Or.inl (by rw [h])
  · exact Or.inr (List.mem_map_of_mem _ h)
  · rcases hch y x with h' | h'
    · exact Or.inr (by rw [hy', h']; exact List.mem_map_of_mem _ hy)
    · exact Or.inl (by rw [hy', h'])

theorem pairwise_upsertBy {choose : Line → Line → Line}
    (hch : ∀ y x, choose y x = y ∨ choose y x = x)
    {x : Line} {acc : List Line}
    (hacc : acc.Pairwise (fun a b => a.sku ≠ b.sku)) :
    (upsertBy choose x acc).Pairwise (fun a b => a.sku ≠ b.sku) := by
  induction acc with
  | nil => simp [upsertBy]
  | cons y ys ih =>
    rcases List.pairwise_cons.mp hacc with ⟨hy, hys⟩
    unfold upsertBy
    by_cases hsk : y.sku = x.sku
    · rw [if_pos hsk]
      refine List.pairwise_cons.mpr ⟨?_, hys⟩
      intro z hz
      rw [sku_choose_left hch hsk]
      exact hy z hz
    · rw [if_neg hsk]
      refine List.pairwise_cons.mpr ⟨?_, ih hys⟩
      intro z hz
      rcases sku_mem_upsertBy hz hch with h | h
      · rw [h]; exact fun he => hsk he
      · rcases List.mem_map.mp h with ⟨w, hw, hw'⟩
        rw [← hw']
        exact hy w hw

theorem pairwise_dedupBy {choose : Line → Line → Line}
    (hch : ∀ y x, choose y x = y ∨ choose y x = x) (ls : List Line) :
    (dedupBy choose ls).Pairwise (fun a b => a.sku ≠ b.sku) := by
  unfold dedupBy
  suffices haux : ∀ (xs acc : List Line), acc.Pairwise (fun a b => a.sku ≠ b.sku) →
      (xs.foldl (fun a x => upsertBy choose x a) acc).Pairwise (fun a b => a.sku ≠ b.sku) by
    exact haux ls [] (by simp)
  intro xs
  induction xs with
  | nil => intro acc hacc; simpa using hacc
  | cons x xs ih =>
    intro acc hacc
    simp only [List.foldl_cons]
    exact ih _ (pairwise_upsertBy hch hacc)

/-! ### The dedup dictionary restricted to one sku (for the collision claim) -/

/-- The sublist of lines carrying sku `s`. -/
def keyFilter (s : String) (ls : List Line) : List Line :=
  ls.filter (fun l => decide (l.sku = s))

/-- Fold the collision rule over successive lines with the same sku. -/
def collapse (choose : Line → Line → Line) : Option Line → List Line → Option Line
  | cur, [] => cur
  | none, x :: xs => collapse choose (some x) xs
  | some y, x :: xs => collapse choose (some (choose y x)) xs

def optList : Option Line → List Line
  | none => []
  | some y => [y]

theorem keyFilter_cons (s : String) (x : Line) (ls : List Line) :
    keyFilter s (x :: ls) = if x.sku = s then x :: keyFilter s ls else keyFilter s ls := by
  by_cases h : x.sku = s <;> simp [keyFilter, h]

theorem keyFilter_upsertBy_ne {choose : Line → Line → Line}
    (hch : ∀ y x, choose y x = y ∨ choose y x = x)
    {s : String} {x : Line} (acc : List Line) (hx : x.sku ≠ s) :
    keyFilter s (upsertBy choose x acc) = keyFilter s acc := by
  induction acc with
  | nil => simp [upsertBy, keyFilter, hx]
  | cons y ys ih =>
    unfold upsertBy
    by_cases hsk : y.sku = x.sku
    · rw [if_pos hsk]
      have hc : (choose y x).sku = y.sku := sku_choose_left hch hsk
      have hy : y.sku ≠ s := by rw [hsk]; exact hx
      rw [keyFilter_cons, keyFilter_cons, if_neg (by rw [hc]; exact hy), if_neg hy]
    · rw [if_neg hsk, keyFilter_cons, keyFilter_cons, ih]

theorem keyFilter_upsertBy_nil {choose : Line → Line → Line}
    {s : String} {x : Line} (acc : List Line) (hx : x.sku = s)
    (hacc : keyFilter s acc = []) :
    keyFilter s (upsertBy choose x acc) = [x] := by
  induction acc with
  | nil => simp [upsertBy, keyFilter, hx]
  | cons y ys ih =>
    rw [keyFilter_cons] at hacc
    by_cases hy : y.sku = s
    · rw [if_pos hy] at hacc; exact absurd hacc (by simp)
    · rw [if_neg hy] at hacc
      unfold upsertBy
      have hsk : y.sku ≠ x.sku := by rw [hx]; exact hy
      rw [if_neg hsk, keyFilter_cons, if_neg hy]
      exact ih hacc

theorem keyFilter_upsertBy_head {choose : Line → Line → Line}
    (hch : ∀ y x, choose y x = y ∨ choose y x = x)
    {s : String} {x y₀ : Line} {rest : List Line} (acc : List Line) (hx : x.sku = s)
    (hacc : keyFilter s acc = y₀ :: rest) :
    keyFilter s (upsertBy choose x acc) = choose y₀ x :: rest := by
  induction acc with
  | nil => simp [keyFilter] at hacc
  | cons y ys ih =>
    rw [keyFilter_cons] at hacc
    by_cases hy : y.sku = s
    · rw [if_pos hy] at hacc
      obtain ⟨hy0, hrest⟩ : y = y₀ ∧ keyFilter s ys = rest := by
        constructor
        · exact (List.cons.injEq _ _ _ _ ▸ hacc).1
        · exact (List.cons.injEq _ _ _ _ ▸ hacc).2
      unfold upsertBy
      have hsk : y.sku = x.sku := by rw [hy, hx]
      rw [if_pos hsk, keyFilter_cons]
      have hc : (choose y x).sku = y.sku := sku_choose_left hch hsk
      rw [if_pos (by rw [hc]; exact hy), hy0, hrest]
    · rw [if_neg hy] at hacc
      unfold upsertBy
      have hsk : y.sku ≠ x.sku := by rw [hx]; exact hy
      rw [if_neg hsk, keyFilter_cons, if_neg hy]
      exact ih hacc

theorem keyFilter_foldl {choose : Line → Line → Line}
    (hch : ∀ y x, choose y x = y ∨ choose y x = x) (s : String) :
    ∀ (xs acc : List Line), (keyFilter s acc).length ≤ 1 →
      keyFilter s (xs.foldl (fun a x => upsertBy choose x a) acc) =
        optList (collapse choose (keyFilter s acc).head? (keyFilter s xs)) := by
  intro xs
  induction xs with
  | nil =>
    intro acc hlen
    simp only [List.foldl_nil, keyFilter]
    cases hk : List.filter (fun l => decide (l.sku = s)) acc with
    | nil => simp [collapse, optList]
    | cons y ys =>
      cases ys with
      | nil => simp [collapse, optList]
      | cons z zs =>
        rw [show keyFilter s acc = y :: z :: zs from hk] at hlen
        simp at hlen
  | cons x xs ih =>
    intro acc hlen
    simp only [List.foldl_cons]
    by_cases hx : x.sku = s
    · rw [keyFilter_cons, if_pos hx]
      cases hk : keyFilter s acc with
      | nil =>
        have h1 : keyFilter s (upsertBy choose x acc) = [x] :=
          keyFilter_upsertBy_nil acc hx hk
        rw [ih _ (by rw [h1]; simp), h1]
        simp [collapse]
      | cons y₀ ys =>
        have hys : ys = [] := by
          rw [hk] at hlen; cases ys with
          | nil => rfl
          | cons a as => simp at hlen
        subst hys
        have h1 : keyFilter s (upsertBy choose x acc) = [choose y₀ x] :=
          keyFilter_upsertBy_head hch acc hx hk
        rw [ih _ (by rw [h1]; simp), h1]
        simp [collapse]
    · rw [keyFilter_cons, if_neg hx, keyFilter_upsertBy_ne hch acc hx |>.symm]
      exact ih _ (by rw [keyFilter_upsertBy_ne hch acc hx]; exact hlen)

theorem keyFilter_dedupBy {choose : Line → Line → Line}
    (hch : ∀ y x, choose y x = y ∨ choose y x = x) (s : String) (ls : List Line) :
    keyFilter s (dedupBy choose ls) = optList (collapse choose none (keyFilter s ls)) := by
  unfold dedupBy
  rw [keyFilter_foldl hch s ls [] (by simp [keyFilter])]
  simp [keyFilter]

/-! ### Scan and search: every emitted payload comes from a matcher success -/

theorem mem_scanA {α : Type} {m : Option Char → List Char → Option (α × Nat)} :
    ∀ (fuel : Nat) (prev : Option Char) (pos : Nat) (l : List Char) (p : Nat × α),
      p ∈ scanA m fuel prev pos l → ∃ prev' l' n, m prev' l' = some (p.2, n) := by
  intro fuel
  induction fuel with
  | zero => intro prev pos l p hp; simp [scanA] at hp
  | succ fuel ih =>
    intro prev pos l p hp
    cases l with
    | nil => simp [scanA] at hp
    | cons c rest =>
      unfold scanA at hp
      cases hm : m prev (c :: rest) with
      | some an =>
        rw [hm] at hp
        rcases List.mem_cons.mp hp with h | h
        · exact ⟨prev, c :: rest, an.2, by rw [hm, h]⟩
        · exact ih _ _ _ _ h
      | none =>
        rw [hm] at hp
        exact ih _ _ _ _ hp

theorem mem_scan {α : Type} {m : Option Char → List Char → Option (α × Nat)}
    {l : List Char} {p : Nat × α} (hp : p ∈ scan m l) :
    ∃ prev' l' n, m prev' l' = some (p.2, n) :=
  mem_scanA _ _ _ _ _ hp

/-! ### Shape facts about the matchers -/

theorem chars_strOf (l : List Char) : chars (strOf l) = l := rfl

theorem Bambu.skuAt_upper {prev : Option Char} {l : List Char} {c : Char}
    {body : List Char} {n : Nat}
    (h : Bambu.skuAt prev l = some ((c, body), n)) : isUpperA c = true := by
  cases l with
  | nil => simp [Bambu.skuAt] at h
  | cons c0 l1 =>
    simp only [Bambu.skuAt] at h
    by_cases hb : (boundaryL prev && isUpperA c0) = true
    · rw [if_pos hb] at h
      have hc : c = c0 := by
        repeat' split at h
        all_goals simp_all
      rw [hc]
      simp only [Bool.and_eq_true] at hb
      exact hb.2
    · rw [if_neg hb] at h
      exact absurd h (by simp)

theorem Generic.skuAt_u0 {prev : Option Char} {l : List Char} {c : Char}
    {body : List Char} {n : Nat}
    (h : Generic.skuAt prev l = some ((c, body), n)) : isU0 c = true := by
  cases l with
  | nil => simp [Generic.skuAt] at h
  | cons c0 l1 =>
    simp only [Generic.skuAt] at h
    by_cases hb : (boundaryL prev && isU0 c0) = true
    · rw [if_pos hb] at h
      have hc : c = c0 := by
        repeat' split at h
        all_goals simp_all
      rw [hc]
      simp only [Bool.and_eq_true] at hb
      exact hb.2
    · rw [if_neg hb] at h
      exact absurd h (by simp)

/-! ### Per-parser line facts -/

theorem bambu_choose_cases (y x : Line) :
    Bambu.choose y x = y ∨ Bambu.choose y x = x := by
  unfold Bambu.choose
  by_cases h : Bambu.unknowns x < Bambu.unknowns y
  · rw [if_pos h]; exact Or.inr rfl
  · rw [if_neg h]; exact Or.inl rfl

theorem lastWins_cases (y x : Line) :
    (fun (_ x : Line) => x) y x = y ∨ (fun (_ x : Line) => x) y x = x :=
  Or.inr rfl

theorem bambu_extract_sku_ne_empty {t : String} {l : Line}
    (hl : l ∈ Bambu.extract t) : l.sku ≠ "" := by
  unfold Bambu.extract at hl
  rcases List.mem_map.mp hl with ⟨hit, hhit, hmk⟩
  obtain ⟨pos, c, body⟩ := hit
  rcases mem_scan hhit with ⟨prev, l', n, hm⟩
  have hu : isUpperA c = true := Bambu.skuAt_upper hm
  rw [← hmk]
  simp only [Bambu.mkLine, Bambu.normalize_sku, chars_strOf]
  exact strOf_ne_empty (upperL_ne_nil (stripChars_ne_nil (notWs_of_isUpperA hu)))

theorem Bambu.parse_lines_eq (t : String) :
    (Bambu.parse t).lines = dedupBy Bambu.choose (Bambu.extract t) := rfl

theorem Generic.mkLine_sku_ne_empty {norm : List Char} {pos : Nat} {c : Char}
    {body : List Char} (hu : isU0 c = true) :
    (Generic.mkLine norm (pos, c, body)).sku ≠ "" := by
  simp only [Generic.mkLine, Generic.normalize_sku, chars_strOf]
  exact strOf_ne_empty (upperL_ne_nil (stripChars_ne_nil (notWs_of_isU0 hu)))

theorem generic_extract_sku_ne_empty {t : String} {l : Line}
    (hl : l ∈ (scan Generic.skuAt (normWs (chars t))).map
      (Generic.mkLine (normWs (chars t)))) : l.sku ≠ "" := by
  rcases List.mem_map.mp hl with ⟨hit, hhit, hmk⟩
  obtain ⟨pos, c, body⟩ := hit
  rcases mem_scan hhit with ⟨prev, l', n, hm⟩
  rw [← hmk]
  exact Generic.mkLine_sku_ne_empty (Generic.skuAt_u0 hm)

theorem Ebay.mkLine_fields {norm : List Char} {hit : Nat × (Char × List Char)} {l : Line}
    (h : Ebay.mkLine norm hit = some l) :
    l.sku ≠ "" ∧ l.manufacturer = "SUNLU" ∧ l.pack = "Unknown" ∧ l.qtyKg = 1 := by
  simp only [Ebay.mkLine] at h
  split at h
  · exact absurd h (by simp)
  · split at h
    · exact absurd h (by simp)
    · simp only [Option.some.injEq] at h
      subst h
      refine ⟨strOf_ne_empty (by simp [upperL]), rfl, rfl, rfl⟩

theorem Jaycar.lineOfRow_fields {row : Jaycar.Row} {l : Line}
    (h : Jaycar.lineOfRow row = some l) :
    l.sku ≠ "" ∧ Jaycar.is_filament l.variant = true := by
  simp only [Jaycar.lineOfRow] at h
  by_cases hfil : is_filament (strOf (stripChars (normWs row.rawName))) = true
  · rw [if_pos hfil] at h
    simp only [Option.some.injEq] at h
    subst h
    exact ⟨strOf_ne_empty (by simp [upperL]), hfil⟩
  · rw [if_neg hfil] at h
    exact absurd h (by simp)

/-! ### Facts about the thumbnail-resolution state machine -/

namespace Ingest

theorem fsSet_same (fs : FS) (k : String) (v : ThumbSrc) : fsSet fs k v k = some v := by
  simp [fsSet]

theorem fsSet_other (fs : FS) {k k' : String} (v : ThumbSrc) (h : k' ≠ k) :
    fsSet fs k v k' = fs k' := by
  simp [fsSet, h]

theorem fsSet_isSome {fs : FS} {k' : String} (k : String) (v : ThumbSrc)
    (h : (fs k').isSome) : ((fsSet fs k v) k').isSome := by
  unfold fsSet
  by_cases hk : k' = k <;> simp [hk, h]

/-- Invariant: every sku recorded in `embedded_skus` or `mapped_skus` has a
thumbnail file. -/
def INV (st : St) : Prop :=
  (∀ k ∈ st.embedded, (st.fs k).isSome) ∧ (∀ k ∈ st.mapped, (st.fs k).isSome)

theorem snd_mem_enumFrom {α : Type} :
    ∀ {l : List α} {n : Nat} {p : Nat × α}, p ∈ l.enumFrom n → p.2 ∈ l := by
  intro l
  induction l with
  | nil => intro n p hp; simp [List.enumFrom] at hp
  | cons x xs ih =>
    intro n p hp
    rcases List.mem_cons.mp hp with h | h
    · rw [h]; simp
    · exact List.mem_cons_of_mem _ (ih h)

theorem snd_mem_enum {α : Type} {l : List α} {p : Nat × α} (hp : p ∈ l.enum) : p.2 ∈ l :=
  snd_mem_enumFrom hp

theorem phase1_INV {numImages : Nat} {lines : List Line} {st : St}
    (hup : ∀ l ∈ lines, strUpper l.sku = l.sku) (hst : INV st) :
    INV (phase1 numImages lines st) := by
  unfold phase1
  have haux : ∀ (ps : List (Nat × Line)) (st : St), (∀ p ∈ ps, strUpper p.2.sku = p.2.sku) →
      INV st → INV (ps.foldl (fun st p =>
        if p.1 < numImages then
          { st with fs := fsSet st.fs p.2.sku (ThumbSrc.embedded p.1),
                    embedded := strUpper p.2.sku :: st.embedded }
        else st) st) := by
    intro ps
    induction ps with
    | nil => intro st _ hst; simpa using hst
    | cons p ps ih =>
      intro st hps hst
      simp only [List.foldl_cons]
      refine ih _ (fun q hq => hps q (List.mem_cons_of_mem _ hq)) ?_
      by_cases hlt : p.1 < numImages
      · rw [if_pos hlt]
        refine ⟨?_, ?_⟩
        · intro k hk
          rcases List.mem_cons.mp hk with h | h
          · rw [h, hps p (by simp)]
            simp [fsSet_same]
          · exact fsSet_isSome _ _ (hst.1 k h)
        · intro k hk
          exact fsSet_isSome _ _ (hst.2 k hk)
      · rw [if_neg hlt]; exact hst
  exact haux _ _ (fun p hp => hup p.2 (snd_mem_enum hp)) hst

theorem phase2_INV {lines : List Line} {st : St} (hst : INV st) : INV (phase2 lines st) := by
  unfold phase2
  induction lines generalizing st with
  | nil => simpa using hst
  | cons l ls ih =>
    simp only [List.foldl_cons]
    exact ih ⟨fun k hk => fsSet_isSome _ _ (hst.1 k hk),
              fun k hk => fsSet_isSome _ _ (hst.2 k hk)⟩

theorem phase3_INV {imap : List (String × String)} {lines : List Line} {st : St}
    (hst : INV st) : INV (phase3 imap lines st) := by
  unfold phase3
  induction lines generalizing st with
  | nil => simpa using hst
  | cons l ls ih =>
    simp only [List.foldl_cons]
    apply ih
    by_cases hsku : strUpper l.sku = ""
    · rw [if_pos hsku]; exact hst
    · rw [if_neg hsku]
      cases hlook : lookupStr imap (strUpper l.sku) with
      | none => exact hst
      | some src =>
        dsimp only
        by_cases hsrc : src = ""
        · rw [if_pos hsrc]; exact hst
        · rw [if_neg hsrc]
          refine ⟨fun k hk => fsSet_isSome _ _ (hst.1 k hk), ?_⟩
          intro k hk
          rcases List.mem_cons.mp hk with h | h
          · rw [h]; simp [fsSet_same]
          · exact fsSet_isSome _ _ (hst.2 k h)

/-- One step of `phase3` preserves an established mapped entry: any later line
with the same uppercased sku rewrites the same value (the map is fixed). -/
theorem phase3_stable {imap : List (String × String)} {sku src : String}
    (hlook : lookupStr imap sku = some src) (hsrc : src ≠ "") :
    ∀ (ls : List Line) (st : St), st.fs sku = some (ThumbSrc.mapped src) → sku ∈ st.mapped →
      (phase3 imap ls st).fs sku = some (ThumbSrc.mapped src) ∧
        sku ∈ (phase3 imap ls st).mapped := by
  intro ls
  induction ls with
  | nil => intro st h1 h2; exact ⟨h1, h2⟩
  | cons l ls ih =>
    intro st h1 h2
    unfold phase3
    simp only [List.foldl_cons]
    show (phase3 imap ls _).fs sku = _ ∧ sku ∈ (phase3 imap ls _).mapped
    by_cases hz : strUpper l.sku = ""
    · rw [if_pos hz]; exact ih st h1 h2
    · rw [if_neg hz]
      by_cases hk : strUpper l.sku = sku
      · rw [hk, hlook]
        dsimp only
        rw [if_neg hsrc]
        exact ih _ (by simp [fsSet_same]) (by simp [h2])
      · cases hlook' : lookupStr imap (strUpper l.sku) with
        | none => exact ih st h1 h2
        | some src' =>
          dsimp only
          by_cases hsrc' : src' = ""
          · rw [if_pos hsrc']; exact ih st h1 h2
          · rw [if_neg hsrc']
            refine ih _ ?_ (by simp [h2])
            show fsSet st.fs (strUpper l.sku) (ThumbSrc.mapped src') sku = _
            rw [fsSet_other _ _ (fun he => hk he.symm)]
            exact h1

/-- `phase3` establishes the mapped entry for any line whose uppercased sku has
a non-falsy map entry. -/
theorem phase3_writes {imap : List (String × String)} {sku src : String}
    (hlook : lookupStr imap sku = some src) (hsrc : src ≠ "") (hne : sku ≠ "") :
    ∀ (ls : List Line) (st : St), (∃ l ∈ ls, strUpper l.sku = sku) →
      (phase3 imap ls st).fs sku = some (ThumbSrc.mapped src) ∧
        sku ∈ (phase3 imap ls st).mapped := by
  intro ls
  induction ls with
  | nil => intro st h; simp at h
  | cons l ls ih =>
    intro st hex
    unfold phase3
    simp only [List.foldl_cons]
    show (phase3 imap ls _).fs sku = _ ∧ sku ∈ (phase3 imap ls _).mapped
    by_cases hk : strUpper l.sku = sku
    · rw [hk, if_neg hne, hlook]
      dsimp only
      rw [if_neg hsrc]
      exact phase3_stable hlook hsrc ls _ (by simp [fsSet_same]) (by simp)
    · have hex' : ∃ l' ∈ ls, strUpper l'.sku = sku := by
        rcases hex with ⟨l', hl', hq⟩
        rcases List.mem_cons.mp hl' with h | h
        · exact absurd (h ▸ hq) hk
        · exact ⟨l', h, hq⟩
      by_cases hz : strUpper l.sku = ""
      · rw [if_pos hz]; exact ih st hex'
      · rw [if_neg hz]
        cases hlook' : lookupStr imap (strUpper l.sku) with
        | none => exact ih st hex'
        | some src' =>
          dsimp only
          by_cases hsrc' : src' = ""
          · rw [if_pos hsrc']; exact ih st hex'
          · rw [if_neg hsrc']; exact ih _ hex'

/-- `phase4` never touches a sku in `mapped_skus`, and never changes the sets. -/
theorem phase4_mapped_frozen {supplier sku : String} :
    ∀ (ls : List Line) (st : St), sku ∈ st.mapped →
      (phase4 supplier ls st).fs sku = st.fs sku := by
  intro ls
  induction ls with
  | nil => intro st _; rfl
  | cons l ls ih =>
    intro st hm
    unfold phase4
    simp only [List.foldl_cons]
    show (phase4 supplier ls _).fs sku = _
    by_cases hz : strUpper l.sku = ""
    · rw [if_pos hz]; exact ih st hm
    · rw [if_neg hz]
      by_cases hmem : strUpper l.sku ∈ st.embedded ∨ strUpper l.sku ∈ st.mapped
      · rw [if_pos hmem]; exact ih st hm
      · rw [if_neg hmem]
        have hk : strUpper l.sku ≠ sku := by
          intro he; exact hmem (Or.inr (he ▸ hm))
        by_cases hskip : (st.fs (strUpper l.sku)).isSome ∧
            ¬(supplier = "jaycar" ∨ supplier = "generic")
        · rw [if_pos hskip]; exact ih st hm
        · rw [if_neg hskip]
          have hrec := ih { fs := fsSet st.fs (strUpper l.sku) ThumbSrc.placeholder,
                            embedded := st.embedded, mapped := st.mapped } hm
          rw [hrec]
          exact fsSet_other _ _ (fun he => hk he.symm)

/-- `phase4` preserves an already-present thumbnail. -/
theorem phase4_isSome_mono {supplier sku : String} :
    ∀ (ls : List Line) (st : St), ((st.fs sku).isSome) →
      ((phase4 supplier ls st).fs sku).isSome := by
  intro ls
  induction ls with
  | nil => intro st h; exact h
  | cons l ls ih =>
    intro st h
    unfold phase4
    simp only [List.foldl_cons]
    show ((phase4 supplier ls _).fs sku).isSome
    by_cases hz : strUpper l.sku = ""
    · rw [if_pos hz]; exact ih st h
    · rw [if_neg hz]
      by_cases hmem : strUpper l.sku ∈ st.embedded ∨ strUpper l.sku ∈ st.mapped
      · rw [if_pos hmem]; exact ih st h
      · rw [if_neg hmem]
        by_cases hskip : (st.fs (strUpper l.sku)).isSome ∧
            ¬(supplier = "jaycar" ∨ supplier = "generic")
        · rw [if_pos hskip]; exact ih st h
        · rw [if_neg hskip]
          exact ih _ (fsSet_isSome _ _ h)

/-- After `phase4`, every line whose sku is uppercase and nonempty has a
thumbnail, provided the incoming state satisfies the set invariant. -/
theorem phase4_covers {supplier : String} :
    ∀ (ls : List Line) (st : St), INV st →
      ∀ l ∈ ls, strUpper l.sku = l.sku → l.sku ≠ "" →
        ((phase4 supplier ls st).fs l.sku).isSome := by
  intro ls
  induction ls with
  | nil => intro st _ l hl; simp at hl
  | cons x xs ih =>
    intro st hst l hl hu hn
    unfold phase4
    simp only [List.foldl_cons]
    show ((phase4 supplier xs _).fs l.sku).isSome
    have hstep : ∀ st' : St, st'.embedded = st.embedded → st'.mapped = st.mapped →
        (∀ k, (st.fs k).isSome → (st'.fs k).isSome) → INV st' := by
      intro st' he hm hmono
      exact ⟨fun k hk => hmono k (hst.1 k (he ▸ hk)), fun k hk => hmono k (hst.2 k (hm ▸ hk))⟩
    rcases List.mem_cons.mp hl with hlx | hlx
    · subst hlx
      rw [hu]
      by_cases hz : l.sku = ""
      · exact absurd hz hn
      · rw [if_neg hz]
        by_cases hmem : l.sku ∈ st.embedded ∨ l.sku ∈ st.mapped
        · rw [if_pos hmem]
          refine phase4_isSome_mono xs st ?_
          rcases hmem with h | h
          · exact hst.1 _ h
          · exact hst.2 _ h
        · rw [if_neg hmem]
          by_cases hskip : (st.fs l.sku).isSome ∧
              ¬(supplier = "jaycar" ∨ supplier = "generic")
          · rw [if_pos hskip]
            exact phase4_isSome_mono xs st hskip.1
          · rw [if_neg hskip]
            exact phase4_isSome_mono xs _ (by simp [fsSet_same])
    · by_cases hz : strUpper x.sku = ""
      · rw [if_pos hz]; exact ih st hst l hlx hu hn
      · rw [if_neg hz]
        by_cases hmem : strUpper x.sku ∈ st.embedded ∨ strUpper x.sku ∈ st.mapped
        · rw [if_pos hmem]; exact ih st hst l hlx hu hn
        · rw [if_neg hmem]
          by_cases hskip : (st.fs (strUpper x.sku)).isSome ∧
              ¬(supplier = "jaycar" ∨ supplier = "generic")
          · rw [if_pos hskip]; exact ih st hst l hlx hu hn
          · rw [if_neg hskip]
            exact ih { fs := fsSet st.fs (strUpper x.sku) ThumbSrc.placeholder,
                       embedded := st.embedded, mapped := st.mapped }
              (hstep _ rfl rfl fun k hk => fsSet_isSome _ _ hk) l hlx hu hn

end Ingest

/-! ### Supplier and confidence projections -/

theorem bambu_parse_supplier (t : String) : (Bambu.parse t).supplier = "bambu" := rfl

theorem jaycar_parse_supplier (t : String) : (Jaycar.parse t).supplier = "jaycar" := rfl

theorem ebay_parse_supplier (t : String) : (Ebay.parse t).supplier = "ebay" := rfl

theorem generic_parse_supplier (t : String) : (Generic.parse t).supplier = "generic" := rfl

theorem bambu_parse_confidence (t : String) :
    (Bambu.parse t).confidence =
      if (Bambu.parse t).lines.isEmpty then (0.2 : ℚ) else 0.95 := rfl

theorem jaycar_parse_confidence (t : String) :
    (Jaycar.parse t).confidence =
      if (Jaycar.parse t).lines.isEmpty then (0.2 : ℚ) else 0.9 := rfl

theorem ebay_parse_confidence (t : String) :
    (Ebay.parse t).confidence =
      if (Ebay.parse t).lines.isEmpty then (0.3 : ℚ) else 0.65 := rfl

theorem generic_parse_confidence (t : String) :
    (Generic.parse t).confidence =
      if (Generic.parse t).lines.isEmpty then (0.1 : ℚ) else 0.6 := rfl

/-! ### Claim theorems -/

/-- Claim C1: for every text, if the Bambu detector matches then `parse_invoice`
returns exactly the Bambu parser's result (whose supplier tag is `"bambu"`),
regardless of any Jaycar- or eBay-style fingerprints also present; detectors
are tried in the fixed order Bambu, Jaycar, eBay, then the always-true generic
catch-all, and the first matching detector's parser result is returned
unchanged. -/
theorem C1_dispatch_priority (t : String) :
    (Bambu.detect t = true →
      parse_invoice t = Bambu.parse t ∧ (parse_invoice t).supplier = "bambu") ∧
    (Bambu.detect t = false → Jaycar.detect t = true →
      parse_invoice t = Jaycar.parse t) ∧
    (Bambu.detect t = false → Jaycar.detect t = false → Ebay.detect t = true →
      parse_invoice t = Ebay.parse t) ∧
    (Bambu.detect t = false → Jaycar.detect t = false → Ebay.detect t = false →
      parse_invoice t = Generic.parse t) ∧
    Generic.detect t = true := by
  refine ⟨?_, ?_, ?_, ?_, rfl⟩
  · intro h
    unfold parse_invoice
    rw [if_pos h]
    exact ⟨rfl, bambu_parse_supplier t⟩
  · intro h1 h2
    unfold parse_invoice
    rw [if_neg (by simp [h1]), if_pos h2]
  · intro h1 h2 h3
    unfold parse_invoice
    rw [if_neg (by simp [h1]), if_neg (by simp [h2]), if_pos h3]
  · intro h1 h2 h3
    unfold parse_invoice
    rw [if_neg (by simp [h1]), if_neg (by simp [h2]), if_neg (by simp [h3])]

theorem C1_dispatch_priority_witness :
    Bambu.detect "bambu lab order details jaycar pty ltd" = true ∧
    Jaycar.detect "bambu lab order details jaycar pty ltd" = true ∧
    Ebay.detect "bambu lab order details jaycar pty ltd" = true ∧
    parse_invoice "bambu lab order details jaycar pty ltd" =
      Bambu.parse "bambu lab order details jaycar pty ltd" ∧
    (parse_invoice "bambu lab order details jaycar pty ltd").supplier = "bambu" := by
  refine ⟨by decide, by decide, by decide, ?_, ?_⟩
  · exact ((C1_dispatch_priority _).1 (by decide)).1
  · exact ((C1_dispatch_priority _).1 (by decide)).2

/-- Claim C7: for each supplier parser, an input producing zero lines gets a
strictly lower confidence than any input producing at least one line
(Bambu 0.2 vs 0.95, Jaycar 0.2 vs 0.9, eBay 0.3 vs 0.65). -/
theorem C7_confidence_monotone (t u : String) :
    ((Bambu.parse t).lines = [] → (Bambu.parse u).lines ≠ [] →
      (Bambu.parse t).confidence = 0.2 ∧ (Bambu.parse u).confidence = 0.95 ∧
        (Bambu.parse t).confidence < (Bambu.parse u).confidence) ∧
    ((Jaycar.parse t).lines = [] → (Jaycar.parse u).lines ≠ [] →
      (Jaycar.parse t).confidence = 0.2 ∧ (Jaycar.parse u).confidence = 0.9 ∧
        (Jaycar.parse t).confidence < (Jaycar.parse u).confidence) ∧
    ((Ebay.parse t).lines = [] → (Ebay.parse u).lines ≠ [] →
      (Ebay.parse t).confidence = 0.3 ∧ (Ebay.parse u).confidence = 0.65 ∧
        (Ebay.parse t).confidence < (Ebay.parse u).confidence) := by
  refine ⟨?_, ?_, ?_⟩ <;> intro h1 h2
  · have e1 : (Bambu.parse t).confidence = 0.2 := by
      rw [bambu_parse_confidence, h1]; rfl
    have e2 : (Bambu.parse u).confidence = 0.95 := by
      rw [bambu_parse_confidence, if_neg (by simp [List.isEmpty_iff, h2])]
    exact ⟨e1, e2, by rw [e1, e2]; norm_num⟩
  · have e1 : (Jaycar.parse t).confidence = 0.2 := by
      rw [jaycar_parse_confidence, h1]; rfl
    have e2 : (Jaycar.parse u).confidence = 0.9 := by
      rw [jaycar_parse_confidence, if_neg (by simp [List.isEmpty_iff, h2])]
    exact ⟨e1, e2, by rw [e1, e2]; norm_num⟩
  · have e1 : (Ebay.parse t).confidence = 0.3 := by
      rw [ebay_parse_confidence, h1]; rfl
    have e2 : (Ebay.parse u).confidence = 0.65 := by
      rw [ebay_parse_confidence, if_neg (by simp [List.isEmpty_iff, h2])]
    exact ⟨e1, e2, by rw [e1, e2]; norm_num⟩

theorem C7_confidence_monotone_witness :
    (Bambu.parse "").lines = [] ∧ (Bambu.parse "A00-D0-1.75-1000-SPL").lines ≠ [] ∧
    (Bambu.parse "").confidence < (Bambu.parse "A00-D0-1.75-1000-SPL").confidence ∧
    (Jaycar.parse "").lines = [] ∧
    (Jaycar.parse "AA123 PLA Filament 1 $5.00 $5.00").lines ≠ [] ∧
    (Jaycar.parse "").confidence <
      (Jaycar.parse "AA123 PLA Filament 1 $5.00 $5.00").confidence ∧
    (Ebay.parse "").lines = [] ∧ (Ebay.parse "SKU123 PLA").lines ≠ [] ∧
    (Ebay.parse "").confidence < (Ebay.parse "SKU123 PLA").confidence := by
  refine ⟨by decide, by decide, ?_, by decide, by decide, ?_, by decide, by decide, ?_⟩
  · exact ((C7_confidence_monotone "" "A00-D0-1.75-1000-SPL").1
      (by decide) (by decide)).2.2
  · exact ((C7_confidence_monotone "" "AA123 PLA Filament 1 $5.00 $5.00").2.1
      (by decide) (by decide)).2.2
  · exact ((C7_confidence_monotone "" "SKU123 PLA").2.2
      (by decide) (by decide)).2.2

/-- Claim C9: placeholder background-color selection is a deterministic
function of (SKU, variant): the same pair always yields the same color, a
first palette-keyword match fixes the color, and when no keyword matches the
color depends only on the SKU's hash (it is independent of the variant text). -/
theorem C9_placeholder_deterministic (v s : String) :
    Render.color_from_variant v s = Render.color_from_variant v s ∧
    (∀ c, Render.paletteFind (lowerL (chars v)) Render.palette = some c →
      Render.color_from_variant v s = c) ∧
    (Render.paletteFind (lowerL (chars v)) Render.palette = none →
      ∀ v' : String, Render.paletteFind (lowerL (chars v')) Render.palette = none →
        Render.color_from_variant v s = Render.color_from_variant v' s) := by
  refine ⟨rfl, ?_, ?_⟩
  · intro c hc
    unfold Render.color_from_variant
    rw [hc]
  · intro h v' h'
    unfold Render.color_from_variant
    rw [h, h']

theorem C9_placeholder_deterministic_witness :
    Render.paletteFind (lowerL (chars "Matte Sakura Pink")) Render.palette =
      some (190, 120, 170) ∧
    Render.color_from_variant "Matte Sakura Pink" "SKU1" = (190, 120, 170) ∧
    Render.paletteFind (lowerL (chars "qq")) Render.palette = none ∧
    Render.paletteFind (lowerL (chars "zz")) Render.palette = none ∧
    Render.color_from_variant "qq" "SKU1" = Render.color_from_variant "zz" "SKU1" := by
  refine ⟨by decide, ?_, by decide, by decide, ?_⟩
  · exact (C9_placeholder_deterministic "Matte Sakura Pink" "SKU1").2.1 _ (by decide)
  · exact (C9_placeholder_deterministic "qq" "SKU1").2.2 (by decide) "zz" (by decide)

/-- Claim C10 (implicit): every line item produced by the eBay regex-on-text
parser has manufacturer `"SUNLU"`, pack `"Unknown"`, and `qtyKg = 1`,
regardless of the input text. -/
theorem C10_ebay_constant_fields (t : String) :
    ∀ l ∈ (Ebay.parse t).lines,
      l.manufacturer = "SUNLU" ∧ l.pack = "Unknown" ∧ l.qtyKg = 1 := by
  intro l hl
  have hlines : (Ebay.parse t).lines = dedupBy (fun _ x => x)
      ((scan Ebay.skuAt (normWs (chars t))).filterMap (Ebay.mkLine (normWs (chars t)))) := rfl
  rw [hlines] at hl
  refine @pred_dedupBy (fun x => x.manufacturer = "SUNLU" ∧ x.pack = "Unknown" ∧ x.qtyKg = 1)
    (fun _ x => x) lastWins_cases _ ?_ l hl
  intro x hx
  rcases List.mem_filterMap.mp hx with ⟨hit, _, hmk⟩
  exact (Ebay.mkLine_fields hmk).2

theorem C10_ebay_constant_fields_witness :
    ({ sku := "SKU123", manufacturer := "SUNLU", material := "PLA",
       variant := "SKU123 PLA", pack := "Unknown", qtyKg := 1 } : Line) ∈
      (Ebay.parse "SKU123 PLA").lines ∧
    ({ sku := "SKU123", manufacturer := "SUNLU", material := "PLA",
       variant := "SKU123 PLA", pack := "Unknown", qtyKg := 1 } : Line).manufacturer
      = "SUNLU" := by
  refine ⟨by decide, ?_⟩
  exact (C10_ebay_constant_fields "SKU123 PLA" _ (by decide)).1

/-- Claim C2: in the Bambu parser, when exactly two extracted line items share
a SKU, deduplication keeps exactly one line for that SKU: the one with fewer
`"Unknown"` material/variant fields, the first-seen on ties. -/
theorem C2_bambu_dedup (t s : String) (a b : Line)
    (h : keyFilter s (Bambu.extract t) = [a, b]) :
    keyFilter s (Bambu.parse t).lines =
      [if Bambu.unknowns b < Bambu.unknowns a then b else a] := by
  rw [Bambu.parse_lines_eq, keyFilter_dedupBy bambu_choose_cases, h]
  simp [collapse, optList, Bambu.choose]

set_option maxRecDepth 8000 in
theorem C2_bambu_dedup_witness :
    keyFilter "A00-D0-1.75-1000-SPL" (Bambu.extract tC2) = [aC2, bC2] ∧
    keyFilter "A00-D0-1.75-1000-SPL" (Bambu.parse tC2).lines = [aC2] ∧
    aC2.material = "PLA Basic" ∧ bC2.material = "Unknown" := by
  have h := C2_bambu_dedup tC2 "A00-D0-1.75-1000-SPL" aC2 bC2 (by decide)
  rw [if_neg (by decide)] at h
  exact ⟨by decide, h, rfl, rfl⟩

/-- Claim C3, counterexample: a SKU with both a qualifying embedded image and
an image-map entry ends up with the mapped image, not the embedded one — the
map application runs after the embedded phase and overwrites its file. -/
theorem C3_embedded_vs_mapped_counterexample :
    "AAA" ∈ stC3.embedded ∧
    Ingest.lookupStr [("AAA", "img.png")] "AAA" = some "img.png" ∧
    stC3.fs "AAA" = some (Ingest.ThumbSrc.mapped "img.png") ∧
    stC3.fs "AAA" ≠ some (Ingest.ThumbSrc.embedded 0) := by
  refine ⟨by decide, by decide, by decide, by decide⟩

/-- Claim C3, amended: every line item with a nonempty (uppercase) SKU ends up
with some thumbnail (strategy 4 never fails), and a SKU with a non-falsy
image-map entry ends up with the mapped image — the mapped image, not the
embedded one, wins when both are present. -/
theorem C3_image_resolution_amended (lines : List Line) (numImages : Nat)
    (imap : List (String × String)) (supplier : String)
    (hup : ∀ l ∈ lines, strUpper l.sku = l.sku) :
    ∀ l ∈ lines, l.sku ≠ "" →
      ((Ingest.ingestImages lines numImages imap supplier).fs l.sku).isSome ∧
      (∀ src, Ingest.lookupStr imap l.sku = some src → src ≠ "" →
        (Ingest.ingestImages lines numImages imap supplier).fs l.sku =
          some (Ingest.ThumbSrc.mapped src)) := by
  intro l hl hn
  have hinv2 : Ingest.INV (if min lines.length numImages = 0 ∧ supplier = "bambu"
      then Ingest.phase2 lines (Ingest.phase1 numImages lines ⟨fun _ => none, [], []⟩)
      else Ingest.phase1 numImages lines ⟨fun _ => none, [], []⟩) := by
    by_cases hc : min lines.length numImages = 0 ∧ supplier = "bambu"
    · rw [if_pos hc]
      exact Ingest.phase2_INV (Ingest.phase1_INV hup ⟨by simp, by simp⟩)
    · rw [if_neg hc]
      exact Ingest.phase1_INV hup ⟨by simp, by simp⟩
  constructor
  · exact Ingest.phase4_covers lines _ (Ingest.phase3_INV hinv2) l hl (hup l hl) hn
  · intro src hlook hsne
    have hw := Ingest.phase3_writes hlook hsne hn lines
      (if min lines.length numImages = 0 ∧ supplier = "bambu"
        then Ingest.phase2 lines (Ingest.phase1 numImages lines ⟨fun _ => none, [], []⟩)
        else Ingest.phase1 numImages lines ⟨fun _ => none, [], []⟩)
      ⟨l, hl, hup l hl⟩
    show (Ingest.phase4 supplier lines _).fs l.sku = _
    rw [Ingest.phase4_mapped_frozen lines _ hw.2]
    exact hw.1

theorem C3_image_resolution_amended_witness :
    (stC3.fs "AAA").isSome ∧ stC3.fs "AAA" = some (Ingest.ThumbSrc.mapped "img.png") := by
  have h := C3_image_resolution_amended [lC3] 1 [("AAA", "img.png")] "ebay"
    (by decide) lC3 (by decide) (by decide)
  exact ⟨h.1, h.2 "img.png" (by decide) (by decide)⟩

/-- Claim C4, counterexample: on the spec's Jaycar scenario text the parser
extracts manufacturer `"Unknown"`, not `"3mm"` — the manufacturer regex
requires a leading letter, and `3mm Black PLA Filament` starts with a digit. -/
theorem C4_jaycar_scenario_counterexample :
    (Jaycar.parse tC4).lines.map Line.manufacturer = ["Unknown"] ∧
    ¬∃ l ∈ (Jaycar.parse tC4).lines, l.manufacturer = "3mm" := by
  refine ⟨by decide, by decide⟩

/-- Claim C4, amended: the scenario text yields exactly one line with sku
`TX1234`, manufacturer `"Unknown"` (the leading-token regex fails on a
digit-leading name), material `"PLA"`, pack `"Spool"`, `qtyKg = 2`, and
confidence `0.9`. -/
theorem C4_jaycar_scenario_amended :
    (Jaycar.parse tC4).supplier = "jaycar" ∧
    (Jaycar.parse tC4).lines =
      [{ sku := "TX1234", manufacturer := "Unknown", material := "PLA",
         variant := "3mm Black PLA Filament", pack := "Spool", qtyKg := 2 }] ∧
    (Jaycar.parse tC4).confidence = 0.9 := by
  have hl : (Jaycar.parse tC4).lines =
      [{ sku := "TX1234", manufacturer := "Unknown", material := "PLA",
         variant := "3mm Black PLA Filament", pack := "Spool", qtyKg := 2 }] := by decide
  refine ⟨rfl, hl, ?_⟩
  rw [jaycar_parse_confidence, hl]
  rfl

/-- Claim C5, counterexample: the row name `PLAB Mount` contains a filament
keyword only inside the longer word `PLAB` (no whole-word match), yet the
parser keeps the row — the code's test for `PLA` is anchored on the left only. -/
theorem C5_whole_word_counterexample :
    filamentKeywordWholeWord "PLAB Mount" = false ∧
    (Jaycar.parse tC5).lines.map Line.variant = ["PLAB Mount"] := by
  refine ⟨by decide, by decide⟩

/-- Claim C5, amended: every line kept by the Jaycar parser has a name passing
the code's keyword test `is_filament` (FILAMENT, PETG, TPU, NYLON as plain
substrings; PLA and ABS requiring only a space or start-of-name on the left,
with no right-hand word boundary, so names like `PLAB` qualify); rows failing
that test are excluded. -/
theorem C5_filament_filter_amended (t : String) :
    ∀ l ∈ (Jaycar.parse t).lines, Jaycar.is_filament l.variant = true := by
  intro l hl
  have hlines : (Jaycar.parse t).lines =
      (scan Jaycar.rowAt (chars t)).filterMap (fun p => Jaycar.lineOfRow p.2) := rfl
  rw [hlines] at hl
  rcases List.mem_filterMap.mp hl with ⟨p, _, hmk⟩
  exact (Jaycar.lineOfRow_fields hmk).2

theorem C5_filament_filter_amended_witness :
    ({ sku := "AA111", manufacturer := "PLAB", material := "PLA",
       variant := "PLAB Mount", pack := "Spool", qtyKg := 2 } : Line) ∈
      (Jaycar.parse tC5).lines ∧
    Jaycar.is_filament "PLAB Mount" = true := by
  refine ⟨by decide, ?_⟩
  exact C5_filament_filter_amended tC5
    { sku := "AA111", manufacturer := "PLAB", material := "PLA",
      variant := "PLAB Mount", pack := "Spool", qtyKg := 2 } (by decide)

/-- Claim C6, counterexample: the Jaycar parser performs no deduplication, so a
text repeating the same row code yields two lines with the same sku. -/
theorem C6_unique_sku_counterexample :
    (Jaycar.parse tC6).lines.map Line.sku = ["AA123", "AA123"] ∧
    ¬(Jaycar.parse tC6).lines.Pairwise (fun a b => a.sku ≠ b.sku) := by
  refine ⟨by decide, by decide⟩

/-- Claim C6, amended: every parser produces only nonempty skus; the Bambu,
eBay and generic parsers additionally deduplicate, so their skus are pairwise
distinct, while the Jaycar parser does not deduplicate (see the
counterexample) and guarantees nonemptiness only. -/
theorem C6_sku_invariant_amended (t : String) :
    (∀ l ∈ (Bambu.parse t).lines, l.sku ≠ "") ∧
    (Bambu.parse t).lines.Pairwise (fun a b => a.sku ≠ b.sku) ∧
    (∀ l ∈ (Ebay.parse t).lines, l.sku ≠ "") ∧
    (Ebay.parse t).lines.Pairwise (fun a b => a.sku ≠ b.sku) ∧
    (∀ l ∈ (Generic.parse t).lines, l.sku ≠ "") ∧
    (Generic.parse t).lines.Pairwise (fun a b => a.sku ≠ b.sku) ∧
    (∀ l ∈ (Jaycar.parse t).lines, l.sku ≠ "") := by
  refine ⟨?_, ?_, ?_, ?_, ?_, ?_, ?_⟩
  · intro l hl
    rw [Bambu.parse_lines_eq] at hl
    exact @pred_dedupBy (fun x => x.sku ≠ "") Bambu.choose bambu_choose_cases _
      (fun x hx => bambu_extract_sku_ne_empty hx) l hl
  · rw [Bambu.parse_lines_eq]
    exact pairwise_dedupBy bambu_choose_cases _
  · intro l hl
    have hlines : (Ebay.parse t).lines = dedupBy (fun _ x => x)
        ((scan Ebay.skuAt (normWs (chars t))).filterMap
          (Ebay.mkLine (normWs (chars t)))) := rfl
    rw [hlines] at hl
    refine @pred_dedupBy (fun x => x.sku ≠ "") (fun _ x => x) lastWins_cases _ ?_ l hl
    intro x hx
    rcases List.mem_filterMap.mp hx with ⟨hit, _, hmk⟩
    exact (Ebay.mkLine_fields hmk).1
  · exact pairwise_dedupBy lastWins_cases _
  · intro l hl
    have hlines : (Generic.parse t).lines = dedupBy (fun _ x => x)
        ((scan Generic.skuAt (normWs (chars t))).map
          (Generic.mkLine (normWs (chars t)))) := rfl
    rw [hlines] at hl
    refine @pred_dedupBy (fun x => x.sku ≠ "") (fun _ x => x) lastWins_cases _ ?_ l hl
    intro x hx
    exact generic_extract_sku_ne_empty hx
  · exact pairwise_dedupBy lastWins_cases _
  · intro l hl
    have hlines : (Jaycar.parse t).lines =
        (scan Jaycar.rowAt (chars t)).filterMap (fun p => Jaycar.lineOfRow p.2) := rfl
    rw [hlines] at hl
    rcases List.mem_filterMap.mp hl with ⟨p, _, hmk⟩
    exact (Jaycar.lineOfRow_fields hmk).1

theorem C6_sku_invariant_amended_witness :
    ({ sku := "A00-D0-1.75-1000-SPL", manufacturer := "Bambu Lab", material := "Unknown",
       variant := "Unknown", pack := "Spool", qtyKg := 1 } : Line) ∈
      (Bambu.parse "A00-D0-1.75-1000-SPL").lines ∧
    ({ sku := "A00-D0-1.75-1000-SPL", manufacturer := "Bambu Lab", material := "Unknown",
       variant := "Unknown", pack := "Spool", qtyKg := 1 } : Line).sku ≠ "" := by
  refine ⟨by decide, ?_⟩
  exact (C6_sku_invariant_amended "A00-D0-1.75-1000-SPL").1 _ (by decide)

/-- Claim C8, counterexample: a text matching no specific detector is routed to
the generic parser, but that parser can still extract lines — here its SKU
grammar matches, yielding one line and confidence `0.6`, not `[]` and `0.1`. -/
theorem C8_generic_fallback_counterexample :
    Bambu.detect "AA-B0-1.75-1000-X" = false ∧
    Jaycar.detect "AA-B0-1.75-1000-X" = false ∧
    Ebay.detect "AA-B0-1.75-1000-X" = false ∧
    (parse_invoice "AA-B0-1.75-1000-X").supplier = "generic" ∧
    (parse_invoice "AA-B0-1.75-1000-X").lines ≠ [] ∧
    (parse_invoice "AA-B0-1.75-1000-X").confidence = 0.6 := by
  have hpi : parse_invoice "AA-B0-1.75-1000-X" = Generic.parse "AA-B0-1.75-1000-X" := by
    unfold parse_invoice
    rw [if_neg (by simp [show Bambu.detect "AA-B0-1.75-1000-X" = false from by decide]),
        if_neg (by simp [show Jaycar.detect "AA-B0-1.75-1000-X" = false from by decide]),
        if_neg (by simp [show Ebay.detect "AA-B0-1.75-1000-X" = false from by decide])]
  have hl : (Generic.parse "AA-B0-1.75-1000-X").lines ≠ [] := by decide
  refine ⟨by decide, by decide, by decide, ?_, ?_, ?_⟩
  · rw [hpi]; rfl
  · rw [hpi]; exact hl
  · rw [hpi, generic_parse_confidence, if_neg (by simp [List.isEmpty_iff, hl])]

/-- Claim C8, amended: `parse_invoice` is total and always returns a result
whose supplier is one of the four fixed tags (never empty); the empty string —
where the generic extractor finds nothing — yields supplier `"generic"`, no
lines, and confidence `0.1`. -/
theorem C8_dispatch_total_amended :
    (∀ t : String,
      ((parse_invoice t).supplier = "bambu" ∨ (parse_invoice t).supplier = "jaycar" ∨
        (parse_invoice t).supplier = "ebay" ∨ (parse_invoice t).supplier = "generic") ∧
      (parse_invoice t).supplier ≠ "") ∧
    (parse_invoice "").supplier = "generic" ∧ (parse_invoice "").lines = [] ∧
    (parse_invoice "").confidence = 0.1 := by
  have hpi : parse_invoice "" = Generic.parse "" := by
    unfold parse_invoice
    rw [if_neg (by simp [show Bambu.detect "" = false from by decide]),
        if_neg (by simp [show Jaycar.detect "" = false from by decide]),
        if_neg (by simp [show Ebay.detect "" = false from by decide])]
  have hl : (Generic.parse "").lines = [] := by decide
  refine ⟨?_, ?_, ?_, ?_⟩
  case refine_2 => rw [hpi]; rfl
  case refine_3 => rw [hpi]; exact hl
  case refine_4 => rw [hpi, generic_parse_confidence, hl]; rfl
  · intro t
    unfold parse_invoice
    by_cases h1 : Bambu.detect t = true
    · rw [if_pos h1]
      rw [bambu_parse_supplier]
      exact ⟨Or.inl rfl, by decide⟩
    · rw [if_neg h1]
      by_cases h2 : Jaycar.detect t = true
      · rw [if_pos h2, jaycar_parse_supplier]
        exact ⟨Or.inr (Or.inl rfl), by decide⟩
      · rw [if_neg h2]
        by_cases h3 : Ebay.detect t = true
        · rw [if_pos h3, ebay_parse_supplier]
          exact ⟨Or.inr (Or.inr (Or.inl rfl)), by decide⟩
        · rw [if_neg h3, generic_parse_supplier]
          exact ⟨Or.inr (Or.inr (Or.inr rfl)), by decide⟩

theorem C8_dispatch_total_amended_witness :
    ((parse_invoice "hello").supplier = "bambu" ∨
      (parse_invoice "hello").supplier = "jaycar" ∨
      (parse_invoice "hello").supplier = "ebay" ∨
      (parse_invoice "hello").supplier = "generic") ∧
    (parse_invoice "hello").supplier ≠ "" :=
  (C8_dispatch_total_amended).1 "hello"

end S2P


